import Mathlib

/-!
Verification development for the Synapse knowledge-graph application.

The definitions below are a shallow embedding of the TypeScript source:
* `handleGraphUpdate` in `src/App.tsx` (the graph-merge engine),
* the gesture state machine in `predictWebcam` in `src/App.tsx`,
* the hit-test effect and the zoom/focus transform effect in
  `src/components/ThinkingGraph.tsx`.

JavaScript `Map` objects are embedded as association lists with JS `Map`
semantics (`set` updates an existing key in place, otherwise appends;
iteration order is insertion order).  A value of type `string | undefined`
(an object field that may be absent) is embedded as `Option String` with
`none` standing for `undefined`; a value of type `string | null` is also
`Option String` with `none` standing for `null`.  JS numbers are embedded
as rationals (the constants of the program are all exactly representable).
-/

namespace Synapse

/-- A JS string-or-undefined value (`none` = `undefined`). -/
abbrev JStr := Option String

/-- Template-literal coercion of a `string | undefined` value:
`` `${x}` `` renders `undefined` as the string `"undefined"`. -/
def jsShow : JStr → String
  | none => "undefined"
  | some s => s

/-! ### JS `Map` model -/

/-- `Map.prototype.get`: value at the first (hence unique) entry with the key. -/
def mapGet {κ α : Type} [DecidableEq κ] : List (κ × α) → κ → Option α
  | [], _ => none
  | (k', v) :: rest, k => if k' = k then some v else mapGet rest k

/-- `Map.prototype.has`. -/
def mapHas {κ α : Type} [DecidableEq κ] (m : List (κ × α)) (k : κ) : Bool :=
  (mapGet m k).isSome

/-- `Map.prototype.set`: update the first entry with the key in place,
otherwise append a new entry (JS insertion-order semantics). -/
def mapSet {κ α : Type} [DecidableEq κ] : List (κ × α) → κ → α → List (κ × α)
  | [], k, v => [(k, v)]
  | (k', v') :: rest, k, v =>
      if k' = k then (k, v) :: rest else (k', v') :: mapSet rest k v

/-- `new Map(entries)`: repeated `set` over the entry list. -/
def mapOfList {κ α : Type} [DecidableEq κ] (xs : List (κ × α)) : List (κ × α) :=
  xs.foldl (fun m p => mapSet m p.1 p.2) []

/-- `Array.from(map.values())`. -/
def mapValues {κ α : Type} (m : List (κ × α)) : List α :=
  m.map Prod.snd

/-- The key list of a map. -/
def mapKeys {κ α : Type} (m : List (κ × α)) : List κ :=
  m.map Prod.fst

/-! ### Graph data model (`src/types.ts`) -/

/-- A graph node: `{ id, label, val }`.  `id`/`label` may be `undefined`
when a malformed concept entry is merged (the code performs no check). -/
structure GraphNode where
  id : JStr
  label : JStr
  val : ℚ
deriving DecidableEq, Repr

/-- A graph link `{ source, target, value }`, endpoints stored as plain ids. -/
structure GraphLink where
  source : JStr
  target : JStr
  value : ℚ
deriving DecidableEq, Repr

/-- The graph state `{ nodes, links }`. -/
structure GraphData where
  nodes : List GraphNode
  links : List GraphLink
deriving DecidableEq, Repr

/-- A concept entry of an update event: `{ id, label, importance }`. -/
structure Concept where
  id : JStr
  label : JStr
  importance : ℚ
deriving DecidableEq, Repr

/-- A relationship entry of an update event:
`{ source_id, target_id, strength }`. -/
structure Relationship where
  source_id : JStr
  target_id : JStr
  strength : ℚ
deriving DecidableEq, Repr

/-- An update event `{ concepts, relationships }`. -/
structure GraphUpdate where
  concepts : List Concept
  relationships : List Relationship
deriving DecidableEq, Repr

/-- `Math.min` on two (non-NaN) numbers. -/
def jsMin (a b : ℚ) : ℚ := if a ≤ b then a else b

/-- The link-map key `` `${s}-${t}` `` computed from a stored link. -/
def linkKeyOf (l : GraphLink) : String :=
  jsShow l.source ++ "-" ++ jsShow l.target

/-! ### The merge engine: `handleGraphUpdate` (`src/App.tsx`, lines 322-382) -/

/-- One iteration of `update.concepts.forEach(...)`: merge a concept into
the node map, adding a contextual link from the current focus when a new
node is created.  `focus` is `focusedNodeIdRef.current : string | null`. -/
def applyConcept (focus : Option String)
    (st : List (JStr × GraphNode) × List (String × GraphLink)) (c : Concept) :
    List (JStr × GraphNode) × List (String × GraphLink) :=
  match mapGet st.1 c.id with
  | some existing =>
      (mapSet st.1 c.id { existing with val := jsMin 20 (existing.val + c.importance * (1/2)) }, st.2)
  | none =>
      -- `if (currentFocus && currentFocus !== c.id)`: truthiness of a
      -- `string | null` excludes null and the empty string.
      match focus with
      | some f =>
          if f ≠ "" ∧ c.id ≠ some f then
            -- only add if no link exists in either direction
            if ¬ (mapHas st.2 (f ++ "-" ++ jsShow c.id)) ∧
                 ¬ (mapHas st.2 (jsShow c.id ++ "-" ++ f)) then
              (mapSet st.1 c.id { id := c.id, label := c.label, val := c.importance },
               mapSet st.2 (f ++ "-" ++ jsShow c.id)
                 { source := some f, target := c.id, value := 3 })
            else
              (mapSet st.1 c.id { id := c.id, label := c.label, val := c.importance }, st.2)
          else
            (mapSet st.1 c.id { id := c.id, label := c.label, val := c.importance }, st.2)
      | none =>
          (mapSet st.1 c.id { id := c.id, label := c.label, val := c.importance }, st.2)

/-- One iteration of `update.relationships.forEach(...)`: only the directed
key `` `${r.source_id}-${r.target_id}` `` is looked up. -/
def applyRelationship (nm : List (JStr × GraphNode))
    (lm : List (String × GraphLink)) (r : Relationship) :
    List (String × GraphLink) :=
  if mapHas nm r.source_id ∧ mapHas nm r.target_id then
    match mapGet lm (jsShow r.source_id ++ "-" ++ jsShow r.target_id) with
    | some ex =>
        mapSet lm (jsShow r.source_id ++ "-" ++ jsShow r.target_id)
          { ex with value := jsMin 10 (ex.value + r.strength * (1/2)) }
    | none =>
        mapSet lm (jsShow r.source_id ++ "-" ++ jsShow r.target_id)
          { source := r.source_id, target := r.target_id, value := r.strength }
  else lm

/-- `handleGraphUpdate` (`src/App.tsx`): rebuild the node and link maps from
the previous arrays, fold the concepts, then the relationships, and return
the map values as the new arrays. -/
def handleGraphUpdate (focus : Option String) (update : GraphUpdate)
    (prev : GraphData) : GraphData :=
  let nm := mapOfList (prev.nodes.map fun n => (n.id, n))
  let lm := mapOfList (prev.links.map fun l => (linkKeyOf l, l))
  let st := update.concepts.foldl (applyConcept focus) (nm, lm)
  let lm2 := update.relationships.foldl (applyRelationship st.1) st.2
  ⟨mapValues st.1, mapValues lm2⟩

/-- The empty graph (`{ nodes: [], links: [] }`). -/
def emptyGraph : GraphData := ⟨[], []⟩

/-- Fold a sequence of `(update, focus-context)` calls over a graph. -/
def applySeq (g : GraphData) (steps : List (GraphUpdate × Option String)) : GraphData :=
  steps.foldl (fun acc s => handleGraphUpdate s.2 s.1 acc) g

/-- A node with the given id is present in the graph's node array. -/
def hasNodeId (g : GraphData) (i : JStr) : Prop :=
  ∃ n ∈ g.nodes, n.id = i

instance (g : GraphData) (i : JStr) : Decidable (hasNodeId g i) := by
  unfold hasNodeId; infer_instance

/-- Every link's endpoints exist in the node array (no dangling edges). -/
def linksClosed (g : GraphData) : Prop :=
  ∀ l ∈ g.links, hasNodeId g l.source ∧ hasNodeId g l.target

instance (g : GraphData) : Decidable (linksClosed g) := by
  unfold linksClosed; infer_instance

/-! ### The gesture state machine: `predictWebcam` (`src/App.tsx`, lines 129-198)

Distances in the source are compared through `Math.sqrt`; since `sqrt` is
strictly monotone on nonnegative numbers, every comparison
`sqrt a < c` (with `c ≥ 0`) is embedded as the equivalent `a < c^2`,
keeping the definitions executable over `ℚ`. -/

/-- A hand-landmark point (only `x`/`y` are consumed by the source). -/
structure Landmark where
  x : ℚ
  y : ℚ
deriving DecidableEq, Repr

/-- The two landmarks the gesture logic consumes: `hand[4]` (thumb tip)
and `hand[8]` (index tip). -/
structure HandFrame where
  thumbTip : Landmark
  indexTip : Landmark
deriving DecidableEq, Repr

/-- Squared pinch distance
`(thumbTip.x - indexTip.x)^2 + (thumbTip.y - indexTip.y)^2`. -/
def pinchDistSq (h : HandFrame) : ℚ :=
  (h.thumbTip.x - h.indexTip.x) ^ 2 + (h.thumbTip.y - h.indexTip.y) ^ 2

/-- `dist < 0.05` (squared form). -/
def isPinchingFrame (h : HandFrame) : Prop := pinchDistSq h < (1/20) ^ 2

instance (h : HandFrame) : Decidable (isPinchingFrame h) := by
  unfold isPinchingFrame; infer_instance

/-- `dist > 0.20` (squared form). -/
def isOpenFrame (h : HandFrame) : Prop := pinchDistSq h > (1/5) ^ 2

instance (h : HandFrame) : Decidable (isOpenFrame h) := by
  unfold isOpenFrame; infer_instance

/-- Neither pinching nor open: the neutral zone of the classifier. -/
def isNeutralFrame (h : HandFrame) : Prop := ¬ isPinchingFrame h ∧ ¬ isOpenFrame h

instance (h : HandFrame) : Decidable (isNeutralFrame h) := by
  unfold isNeutralFrame; infer_instance

/-- The mutable gesture-debounce state: `pinchDurationRef`,
`spreadDurationRef`, `hasTriggeredRef`. -/
structure GestureState where
  pinch : ℕ
  spread : ℕ
  armed : Bool
deriving DecidableEq, Repr

/-- Initial gesture state (all refs start at `0` / `false`). -/
def initGesture : GestureState := ⟨0, 0, false⟩

/-- An emitted interaction event: `enterNode(id)` or `exitNode()`. -/
inductive GEvent where
  | select (id : String)
  | deselect
deriving DecidableEq, Repr

/-- Per-frame input of the state machine: the landmark sample (`none` when
no hand is detected), plus the current `hoveredNodeId` and `focusedNodeId`
(both `string | null`). -/
structure FrameIn where
  hand : Option HandFrame
  hover : Option String
  focus : Option String
deriving DecidableEq, Repr

/-- One frame of the gesture state machine (`src/App.tsx`, lines 129-196):
returns the next state and the event emitted on this frame, if any.
`if (hoveredNodeId)` / `if (focusedNodeId)` are JS truthiness tests on a
`string | null`, excluding both null and the empty string. -/
def gestureStep (st : GestureState) (f : FrameIn) : GestureState × Option GEvent :=
  match f.hand with
  | none => (⟨0, 0, st.armed⟩, none)
  | some h =>
    if isPinchingFrame h then
      if st.pinch + 1 > 5 ∧ st.armed = false then
        match f.hover with
        | some hov =>
          if hov ≠ "" then
            if f.focus ≠ some hov then
              (⟨st.pinch + 1, 0, true⟩, some (GEvent.select hov))
            else
              (⟨st.pinch + 1, 0, true⟩, none)
          else (⟨st.pinch + 1, 0, st.armed⟩, none)
        | none => (⟨st.pinch + 1, 0, st.armed⟩, none)
      else (⟨st.pinch + 1, 0, st.armed⟩, none)
    else if isOpenFrame h then
      if st.spread + 1 > 8 ∧ st.armed = false then
        match f.focus with
        | some foc =>
          if foc ≠ "" then (⟨0, st.spread + 1, true⟩, some GEvent.deselect)
          else (⟨0, st.spread + 1, true⟩, none)
        | none => (⟨0, st.spread + 1, true⟩, none)
      else (⟨0, st.spread + 1, st.armed⟩, none)
    else
      (⟨0, 0, false⟩, none)

/-- Run the state machine over a frame sequence, collecting emitted events. -/
def gestureRun (st : GestureState) : List FrameIn → GestureState × List GEvent
  | [] => (st, [])
  | f :: fs =>
    let s := gestureStep st f
    let r := gestureRun s.1 fs
    (r.1, s.2.toList ++ r.2)

/-! ### The visual layer: `ThinkingGraph.tsx` -/

/-- A rendered node as the hit-test sees it: string id plus the optional
`x`/`y` coordinates assigned by the simulation (undefined until the first
tick). -/
structure VisNode where
  id : String
  x : Option ℚ
  y : Option ℚ
deriving DecidableEq, Repr

/-- A view transform `(tx, ty, k)`: `translate(tx, ty) scale(k)`. -/
abbrev ViewTransform := ℚ × ℚ × ℚ

/-- The transform the hit-test effect recomputes per cursor sample
(`src/components/ThinkingGraph.tsx`, lines 60-72): defaults to
`(width/2, height/2, zoomLevel)` and switches to the focus transform with
`k = 1.2` only when a focused node with defined coordinates is found. -/
def hitTestTransform (width height zoom : ℚ) (focus : Option String)
    (nodes : List VisNode) : ViewTransform :=
  let dflt : ViewTransform := (width / 2, height / 2, zoom)
  match focus with
  | none => dflt
  | some fid =>
    if fid = "" then dflt
    else
      match nodes.find? (fun n => n.id = fid) with
      | some fn =>
        match fn.x, fn.y with
        | some fx, some fy =>
          (width / 2 - fx * (6/5), height / 2 - fy * (6/5), 6/5)
        | _, _ => dflt
      | none => dflt

/-- The transform the zoom/focus effect renders with
(`src/components/ThinkingGraph.tsx`, lines 340-368): the same duplicated
formula, written independently in the source. -/
def renderTransform (width height zoom : ℚ) (focus : Option String)
    (nodes : List VisNode) : ViewTransform :=
  match focus with
  | none => (width / 2, height / 2, zoom)
  | some fid =>
    if fid = "" then (width / 2, height / 2, zoom)
    else
      match nodes.find? (fun n => n.id = fid) with
      | some node =>
        match node.x, node.y with
        | some nx, some ny =>
          (width / 2 - nx * (6/5), height / 2 - ny * (6/5), 6/5)
        | _, _ => (width / 2, height / 2, zoom)
      | none => (width / 2, height / 2, zoom)

/-- Squared screen-space distance between a projected node position and
the cursor pixel position (the source compares `Math.sqrt` of this against
nonnegative bounds, which is equivalent to comparing the squares). -/
def screenDistSq (t : ViewTransform) (cursorPx : ℚ × ℚ) (nx ny : ℚ) : ℚ :=
  (nx * t.2.2 + t.1 - cursorPx.1) ^ 2 + (ny * t.2.2 + t.2.1 - cursorPx.2) ^ 2

/-- One iteration of the hit-test loop over a node: update the current
`(hitNode, minDist)` accumulator (squared-distance form, initial bound
`70^2 = 4900`); nodes without coordinates are skipped. -/
def hitFold (t : ViewTransform) (cursorPx : ℚ × ℚ)
    (acc : Option String × ℚ) (n : VisNode) : Option String × ℚ :=
  match n.x, n.y with
  | some nx, some ny =>
    if screenDistSq t cursorPx nx ny < acc.2
    then (some n.id, screenDistSq t cursorPx nx ny) else acc
  | _, _ => acc

/-- The hit-test effect (`src/components/ThinkingGraph.tsx`, lines 33-91):
resolve a normalized cursor sample to the hovered node id.  Returns `none`
when the cursor is absent or the node list is empty (the effect's early
return), otherwise the nearest node within 70 screen pixels. -/
def hitTest (width height : ℚ) (cursor : Option (ℚ × ℚ)) (zoom : ℚ)
    (focus : Option String) (nodes : List VisNode) : Option String :=
  match cursor with
  | none => none
  | some c =>
    if nodes.length = 0 then none
    else
      (nodes.foldl
        (hitFold (hitTestTransform width height zoom focus nodes)
          (c.1 * width, c.2 * height))
        (none, 70 ^ 2)).1

/-! ### Basic lemmas about the JS `Map` model -/

section MapLemmas

variable {κ α : Type} [DecidableEq κ]

theorem mapGet_mem {m : List (κ × α)} {k : κ} {v : α}
    (h : mapGet m k = some v) : (k, v) ∈ m := by
  induction m with
  | nil => simp [mapGet] at h
  | cons p rest ih =>
    obtain ⟨k', v'⟩ := p
    by_cases hk : k' = k
    · subst hk
      have h' : v' = v := by simpa [mapGet] using h
      subst h'
      exact List.mem_cons_self _ _
    · simp only [mapGet, if_neg hk] at h
      exact List.mem_cons_of_mem _ (ih h)

theorem mapHas_iff_mem_keys {m : List (κ × α)} {k : κ} :
    mapHas m k = true ↔ k ∈ mapKeys m := by
  induction m with
  | nil => simp [mapHas, mapGet, mapKeys]
  | cons p rest ih =>
    obtain ⟨k', v'⟩ := p
    by_cases hk : k' = k
    · subst hk
      simp [mapHas, mapGet, mapKeys]
    · simp only [mapHas, mapGet, if_neg hk, mapKeys, List.map_cons, List.mem_cons]
      rw [mapHas] at ih
      rw [ih]
      constructor
      · exact Or.inr
      · rintro (h | h)
        · exact absurd h.symm hk
        · exact h

theorem mem_mapSet {m : List (κ × α)} {k : κ} {v : α} {p : κ × α}
    (h : p ∈ mapSet m k v) : p = (k, v) ∨ p ∈ m := by
  induction m with
  | nil => simpa [mapSet] using h
  | cons q rest ih =>
    obtain ⟨k', v'⟩ := q
    by_cases hk : k' = k
    · simp only [mapSet, if_pos hk, List.mem_cons] at h
      rcases h with h | h
      · exact Or.inl h
      · exact Or.inr (List.mem_cons_of_mem _ h)
    · simp only [mapSet, if_neg hk, List.mem_cons] at h
      rcases h with h | h
      · exact Or.inr (by simp [h])
      · rcases ih h with h' | h'
        · exact Or.inl h'
        · exact Or.inr (List.mem_cons_of_mem _ h')

theorem mapSet_mem_self {m : List (κ × α)} {k : κ} {v : α} :
    (k, v) ∈ mapSet m k v := by
  induction m with
  | nil => simp [mapSet]
  | cons q rest ih =>
    obtain ⟨k', v'⟩ := q
    by_cases hk : k' = k
    · simp [mapSet, if_pos hk]
    · simp only [mapSet, if_neg hk, List.mem_cons]
      exact Or.inr ih

omit [DecidableEq κ] in
theorem mapKeys_cons {p : κ × α} {m : List (κ × α)} :
    mapKeys (p :: m) = p.1 :: mapKeys m := rfl

theorem mapKeys_mapSet {m : List (κ × α)} {k : κ} {v : α} :
    mapKeys (mapSet m k v) = if k ∈ mapKeys m then mapKeys m else mapKeys m ++ [k] := by
  induction m with
  | nil => simp [mapSet, mapKeys]
  | cons q rest ih =>
    obtain ⟨k', v'⟩ := q
    by_cases hk : k' = k
    · subst hk
      simp [mapSet, mapKeys_cons]
    · have hk' : ¬ (k = k') := fun h => hk h.symm
      simp only [mapSet, if_neg hk, mapKeys_cons, ih]
      by_cases hmem : k ∈ mapKeys rest
      · rw [if_pos hmem,
          if_pos (show k ∈ k' :: mapKeys rest from List.mem_cons_of_mem _ hmem)]
      · rw [if_neg hmem, if_neg (show ¬ k ∈ k' :: mapKeys rest by simp [hk', hmem])]
        simp

theorem mapHas_mapSet {m : List (κ × α)} {k k' : κ} {v : α} :
    mapHas (mapSet m k v) k' = true ↔ (mapHas m k' = true ∨ k' = k) := by
  rw [mapHas_iff_mem_keys, mapHas_iff_mem_keys, mapKeys_mapSet]
  by_cases hmem : k ∈ mapKeys m
  · rw [if_pos hmem]
    constructor
    · exact Or.inl
    · rintro (h | h)
      · exact h
      · exact h ▸ hmem
  · rw [if_neg hmem]
    simp

theorem mapHas_mapSet_of_has {m : List (κ × α)} {k k' : κ} {v : α}
    (h : mapHas m k' = true) : mapHas (mapSet m k v) k' = true :=
  mapHas_mapSet.mpr (Or.inl h)

theorem mapHas_mapSet_self {m : List (κ × α)} {k : κ} {v : α} :
    mapHas (mapSet m k v) k = true :=
  mapHas_mapSet.mpr (Or.inr rfl)

theorem nodup_mapKeys_mapSet {m : List (κ × α)} {k : κ} {v : α}
    (h : (mapKeys m).Nodup) : (mapKeys (mapSet m k v)).Nodup := by
  rw [mapKeys_mapSet]
  by_cases hmem : k ∈ mapKeys m
  · rwa [if_pos hmem]
  · rw [if_neg hmem]
    simpa [List.nodup_append] using ⟨h, hmem⟩

theorem mapSet_eq_append {m : List (κ × α)} {k : κ} {v : α}
    (h : mapHas m k = false) : mapSet m k v = m ++ [(k, v)] := by
  induction m with
  | nil => simp [mapSet]
  | cons q rest ih =>
    obtain ⟨k', v'⟩ := q
    by_cases hk : k' = k
    · subst hk
      simp [mapHas, mapGet] at h
    · simp only [mapHas, mapGet, if_neg hk] at h
      simp [mapSet, if_neg hk, ih h]

theorem mem_mapValues_mapSet {m : List (κ × α)} {k : κ} {v w : α}
    (h : w ∈ mapValues (mapSet m k v)) : w = v ∨ w ∈ mapValues m := by
  unfold mapValues at h ⊢
  rcases List.mem_map.mp h with ⟨p, hp, hpv⟩
  rcases mem_mapSet hp with h' | h'
  · left; rw [← hpv, h']
  · right; exact List.mem_map.mpr ⟨p, h', hpv⟩

theorem mem_mapValues_mapSet_self {m : List (κ × α)} {k : κ} {v : α} :
    v ∈ mapValues (mapSet m k v) :=
  List.mem_map.mpr ⟨(k, v), mapSet_mem_self, rfl⟩

theorem mapHas_foldl_mapSet {xs : List (κ × α)} {acc : List (κ × α)} {k : κ} :
    mapHas (xs.foldl (fun m p => mapSet m p.1 p.2) acc) k = true ↔
      (mapHas acc k = true ∨ k ∈ xs.map Prod.fst) := by
  induction xs generalizing acc with
  | nil => simp
  | cons p rest ih =>
    simp only [List.foldl_cons, List.map_cons, List.mem_cons]
    rw [ih, mapHas_mapSet]
    tauto

theorem mapHas_mapOfList {xs : List (κ × α)} {k : κ} :
    mapHas (mapOfList xs) k = true ↔ k ∈ xs.map Prod.fst := by
  unfold mapOfList
  rw [mapHas_foldl_mapSet]
  simp [mapHas, mapGet]

theorem mem_mapValues_foldl {xs : List (κ × α)} {acc : List (κ × α)} {v : α}
    (h : v ∈ mapValues (xs.foldl (fun m p => mapSet m p.1 p.2) acc)) :
    v ∈ mapValues acc ∨ v ∈ xs.map Prod.snd := by
  induction xs generalizing acc with
  | nil => exact Or.inl h
  | cons p rest ih =>
    simp only [List.foldl_cons] at h
    rcases ih h with h' | h'
    · rcases mem_mapValues_mapSet h' with h'' | h''
      · right; simp [h'']
      · left; exact h''
    · right; exact List.mem_cons_of_mem _ h'

theorem mem_mapValues_mapOfList {xs : List (κ × α)} {v : α}
    (h : v ∈ mapValues (mapOfList xs)) : v ∈ xs.map Prod.snd := by
  rcases mem_mapValues_foldl h with h' | h'
  · simp [mapValues] at h'
  · exact h'

theorem nodup_mapKeys_foldl {xs : List (κ × α)} {acc : List (κ × α)}
    (h : (mapKeys acc).Nodup) :
    (mapKeys (xs.foldl (fun m p => mapSet m p.1 p.2) acc)).Nodup := by
  induction xs generalizing acc with
  | nil => exact h
  | cons p rest ih =>
    simp only [List.foldl_cons]
    exact ih (nodup_mapKeys_mapSet h)

theorem nodup_mapKeys_mapOfList {xs : List (κ × α)} :
    (mapKeys (mapOfList xs)).Nodup :=
  nodup_mapKeys_foldl (by simp [mapKeys])

theorem foldl_mapSet_eq_append {xs : List (κ × α)} {acc : List (κ × α)}
    (hnd : (xs.map Prod.fst).Nodup)
    (hdisj : ∀ k ∈ xs.map Prod.fst, mapHas acc k = false) :
    xs.foldl (fun m p => mapSet m p.1 p.2) acc = acc ++ xs := by
  induction xs generalizing acc with
  | nil => simp
  | cons p rest ih =>
    simp only [List.foldl_cons]
    have h1 : mapHas acc p.1 = false := hdisj p.1 (by simp)
    have hnd' : (rest.map Prod.fst).Nodup := (List.nodup_cons.mp (by simpa using hnd)).2
    have hp1 : p.1 ∉ rest.map Prod.fst := (List.nodup_cons.mp (by simpa using hnd)).1
    have hdisj' : ∀ k ∈ rest.map Prod.fst, mapHas (mapSet acc p.1 p.2) k = false := by
      intro k hk
      have : ¬ (mapHas (mapSet acc p.1 p.2) k = true) := by
        rw [mapHas_mapSet]
        rintro (h' | h')
        · rw [hdisj k (List.mem_cons_of_mem _ hk)] at h'
          exact Bool.false_ne_true h'
        · exact hp1 (h' ▸ hk)
      simpa using this
    rw [ih hnd' hdisj', mapSet_eq_append h1]
    simp

theorem mapOfList_self {xs : List (κ × α)} (hnd : (xs.map Prod.fst).Nodup) :
    mapOfList xs = xs := by
  unfold mapOfList
  rw [foldl_mapSet_eq_append hnd (by intro k _; simp [mapHas, mapGet])]
  simp

theorem mapGet_of_mem_nodup {xs : List (κ × α)} (hnd : (xs.map Prod.fst).Nodup)
    {k : κ} {v : α} (hmem : (k, v) ∈ xs) : mapGet xs k = some v := by
  induction xs with
  | nil => cases hmem
  | cons p rest ih =>
    obtain ⟨k', v'⟩ := p
    rcases List.mem_cons.mp hmem with h | h
    · rw [← h]
      simp [mapGet]
    · rw [List.map_cons] at hnd
      have hnd' := List.nodup_cons.mp hnd
      have hne : k' ≠ k := by
        intro he
        exact hnd'.1 (he ▸ (List.mem_map.mpr ⟨(k, v), h, rfl⟩))
      simp only [mapGet, if_neg hne]
      exact ih hnd'.2 h

theorem map_ite_id_of_not_mem {m : List (κ × α)} {k : κ} {v : α}
    (h : k ∉ mapKeys m) :
    m.map (fun p => if p.1 = k then (k, v) else p) = m := by
  induction m with
  | nil => rfl
  | cons q rest ih =>
    simp only [mapKeys_cons, List.mem_cons] at h
    push_neg at h
    simp only [List.map_cons, if_neg (Ne.symm h.1), ih h.2]

theorem mapSet_eq_map_of_nodup {m : List (κ × α)} {k : κ} {v : α}
    (hnd : (mapKeys m).Nodup) (hh : mapHas m k = true) :
    mapSet m k v = m.map (fun p => if p.1 = k then (k, v) else p) := by
  induction m with
  | nil => simp [mapHas, mapGet] at hh
  | cons q rest ih =>
    obtain ⟨k', v'⟩ := q
    have hnd' := List.nodup_cons.mp (by simpa [mapKeys_cons] using hnd)
    by_cases hk : k' = k
    · subst hk
      have : k' ∉ mapKeys rest := by simpa [mapKeys] using hnd'.1
      simp [mapSet, map_ite_id_of_not_mem this]
    · have hh' : mapHas rest k = true := by
        simpa [mapHas, mapGet, if_neg hk] using hh
      simp only [mapSet, if_neg hk, List.map_cons, if_neg hk]
      rw [ih (by simpa [mapKeys] using hnd'.2) hh']

end MapLemmas

theorem mem_foldl_mapSet {κ α : Type} [DecidableEq κ] {xs : List (κ × α)}
    {acc : List (κ × α)} {p : κ × α}
    (h : p ∈ xs.foldl (fun m q => mapSet m q.1 q.2) acc) : p ∈ acc ∨ p ∈ xs := by
  induction xs generalizing acc with
  | nil => exact Or.inl h
  | cons q rest ih =>
    simp only [List.foldl_cons] at h
    rcases ih h with h' | h'
    · rcases mem_mapSet h' with h'' | h''
      · right; simp [h'']
      · left; exact h''
    · right; exact List.mem_cons_of_mem _ h'

theorem mem_mapOfList {κ α : Type} [DecidableEq κ] {xs : List (κ × α)} {p : κ × α}
    (h : p ∈ mapOfList xs) : p ∈ xs := by
  rcases mem_foldl_mapSet h with h' | h'
  · cases h'
  · exact h'

theorem mapHas_exists_entry {κ α : Type} [DecidableEq κ] {m : List (κ × α)} {k : κ}
    (h : mapHas m k = true) : ∃ v, (k, v) ∈ m := by
  unfold mapHas at h
  rcases Option.isSome_iff_exists.mp h with ⟨v, hv⟩
  exact ⟨v, mapGet_mem hv⟩

/-- Node-map presence coincides with presence of a node with that id in
the source array. -/
theorem mapHas_nodesMap {nodes : List GraphNode} {i : JStr} :
    mapHas (mapOfList (nodes.map fun n => (n.id, n))) i = true ↔
      ∃ n ∈ nodes, n.id = i := by
  rw [mapHas_mapOfList]
  simp only [List.map_map]
  constructor
  · intro h
    rcases List.mem_map.mp h with ⟨n, hn, hni⟩
    exact ⟨n, hn, hni⟩
  · rintro ⟨n, hn, hni⟩
    exact List.mem_map.mpr ⟨n, hn, hni⟩

/-! ### Preservation of the no-dangling-links invariant through a merge -/

/-- Invariant carried through the concept fold: node-map entries are keyed
by their node's id, the focused id (if any) is in the node map, and every
link entry's endpoints are in the node map. -/
def MergeInv (focus : Option String)
    (st : List (JStr × GraphNode) × List (String × GraphLink)) : Prop :=
  (∀ p ∈ st.1, p.2.id = p.1) ∧
  (∀ f, focus = some f → mapHas st.1 (some f) = true) ∧
  (∀ p ∈ st.2, mapHas st.1 p.2.source = true ∧ mapHas st.1 p.2.target = true)

theorem MergeInv.setNode {focus : Option String}
    {st : List (JStr × GraphNode) × List (String × GraphLink)}
    {node : GraphNode} {k : JStr}
    (h : MergeInv focus st) (hid : node.id = k) :
    MergeInv focus (mapSet st.1 k node, st.2) := by
  obtain ⟨hwf, hfoc, hcl⟩ := h
  refine ⟨?_, ?_, ?_⟩
  · intro p hp
    rcases mem_mapSet hp with h' | h'
    · rw [h']; exact hid
    · exact hwf p h'
  · intro f hf
    exact mapHas_mapSet_of_has (hfoc f hf)
  · intro p hp
    exact ⟨mapHas_mapSet_of_has (hcl p hp).1, mapHas_mapSet_of_has (hcl p hp).2⟩

theorem applyConcept_inv {focus : Option String}
    {st : List (JStr × GraphNode) × List (String × GraphLink)} {c : Concept}
    (h : MergeInv focus st) : MergeInv focus (applyConcept focus st c) := by
  unfold applyConcept
  cases hg : mapGet st.1 c.id with
  | some existing =>
    dsimp only
    have hid : existing.id = c.id := h.1 _ (mapGet_mem hg)
    exact h.setNode hid
  | none =>
    have hnode : MergeInv focus
        (mapSet st.1 c.id ⟨c.id, c.label, c.importance⟩, st.2) :=
      h.setNode rfl
    cases focus with
    | none => exact hnode
    | some f =>
      dsimp only
      by_cases h1 : f ≠ "" ∧ c.id ≠ some f
      · rw [if_pos h1]
        by_cases h2 : ¬ (mapHas st.2 (f ++ "-" ++ jsShow c.id)) ∧
            ¬ (mapHas st.2 (jsShow c.id ++ "-" ++ f))
        · rw [if_pos h2]
          obtain ⟨hwf, hfoc, hcl⟩ := hnode
          refine ⟨hwf, hfoc, ?_⟩
          intro p hp
          rcases mem_mapSet hp with h' | h'
          · rw [h']
            constructor
            · exact hfoc f rfl
            · exact mapHas_mapSet_self
          · exact hcl p h'
        · rw [if_neg h2]
          exact hnode
      · rw [if_neg h1]
        exact hnode

theorem concepts_fold_inv {focus : Option String} {cs : List Concept}
    {st : List (JStr × GraphNode) × List (String × GraphLink)}
    (h : MergeInv focus st) :
    MergeInv focus (cs.foldl (applyConcept focus) st) := by
  induction cs generalizing st with
  | nil => exact h
  | cons c rest ih =>
    simp only [List.foldl_cons]
    exact ih (applyConcept_inv h)

theorem applyRelationship_closed {nm : List (JStr × GraphNode)}
    {lm : List (String × GraphLink)} {r : Relationship}
    (h : ∀ p ∈ lm, mapHas nm p.2.source = true ∧ mapHas nm p.2.target = true) :
    ∀ p ∈ applyRelationship nm lm r,
      mapHas nm p.2.source = true ∧ mapHas nm p.2.target = true := by
  intro p hp
  unfold applyRelationship at hp
  by_cases hg : mapHas nm r.source_id = true ∧ mapHas nm r.target_id = true
  · rw [if_pos (by exact_mod_cast hg)] at hp
    cases hx : mapGet lm (jsShow r.source_id ++ "-" ++ jsShow r.target_id) with
    | some ex =>
      rw [hx] at hp
      rcases mem_mapSet hp with h' | h'
      · have hex := h (jsShow r.source_id ++ "-" ++ jsShow r.target_id, ex) (mapGet_mem hx)
        rw [h']
        exact ⟨hex.1, hex.2⟩
      · exact h p h'
    | none =>
      rw [hx] at hp
      rcases mem_mapSet hp with h' | h'
      · rw [h']
        exact hg
      · exact h p h'
  · rw [if_neg (by exact_mod_cast hg)] at hp
    exact h p hp

theorem relationships_fold_closed {nm : List (JStr × GraphNode)}
    {lm : List (String × GraphLink)} {rs : List Relationship}
    (h : ∀ p ∈ lm, mapHas nm p.2.source = true ∧ mapHas nm p.2.target = true) :
    ∀ p ∈ rs.foldl (applyRelationship nm) lm,
      mapHas nm p.2.source = true ∧ mapHas nm p.2.target = true := by
  induction rs generalizing lm with
  | nil => exact h
  | cons r rest ih =>
    simp only [List.foldl_cons]
    exact ih (applyRelationship_closed h)

/-- One merge call preserves the no-dangling-links invariant, provided the
focused id (when set) names a node present in the incoming graph. -/
theorem handleGraphUpdate_closed {focus : Option String} {u : GraphUpdate}
    {g : GraphData} (hcl : linksClosed g)
    (hfoc : ∀ f, focus = some f → hasNodeId g (some f)) :
    linksClosed (handleGraphUpdate focus u g) := by
  unfold handleGraphUpdate
  set nm := mapOfList (g.nodes.map fun n => (n.id, n)) with hnm
  set lm := mapOfList (g.links.map fun l => (linkKeyOf l, l)) with hlm
  have hinv : MergeInv focus (nm, lm) := by
    refine ⟨?_, ?_, ?_⟩
    · intro p hp
      have := mem_mapOfList hp
      rcases List.mem_map.mp this with ⟨n, _, hn⟩
      rw [← hn]
    · intro f hf
      exact mapHas_nodesMap.mpr (hfoc f hf)
    · intro p hp
      have := mem_mapOfList hp
      rcases List.mem_map.mp this with ⟨l, hl, hpl⟩
      have hsrc := (hcl l hl).1
      have htgt := (hcl l hl).2
      rw [← hpl]
      exact ⟨mapHas_nodesMap.mpr hsrc, mapHas_nodesMap.mpr htgt⟩
  have hinv' : MergeInv focus (u.concepts.foldl (applyConcept focus) (nm, lm)) :=
    concepts_fold_inv hinv
  set st := u.concepts.foldl (applyConcept focus) (nm, lm) with hst
  have hfin : ∀ p ∈ u.relationships.foldl (applyRelationship st.1) st.2,
      mapHas st.1 p.2.source = true ∧ mapHas st.1 p.2.target = true :=
    relationships_fold_closed hinv'.2.2
  intro l hl
  rcases List.mem_map.mp hl with ⟨p, hp, hpl⟩
  have hend := hfin p hp
  rw [hpl] at hend
  constructor
  · rcases mapHas_exists_entry hend.1 with ⟨v, hv⟩
    refine ⟨v, List.mem_map.mpr ⟨(l.source, v), hv, rfl⟩, ?_⟩
    exact hinv'.1 _ hv
  · rcases mapHas_exists_entry hend.2 with ⟨v, hv⟩
    refine ⟨v, List.mem_map.mpr ⟨(l.target, v), hv, rfl⟩, ?_⟩
    exact hinv'.1 _ hv

/-! ### Claim C1 -/

/-- C1: For every sequence of `applyUpdate` calls starting from the empty
graph, in which each call's context `focusedNodeId`, if set, references a
node present in the current graph, every link in every intermediate and
final graph has both its source id and target id present in the node map
(no dangling edges). -/
theorem C1_no_dangling_links (steps : List (GraphUpdate × Option String))
    (hfoc : ∀ (i : ℕ) (hi : i < steps.length), ∀ f : String,
      (steps[i]).2 = some f →
      hasNodeId (applySeq emptyGraph (steps.take i)) (some f)) :
    ∀ k : ℕ, linksClosed (applySeq emptyGraph (steps.take k)) := by
  intro k
  induction k with
  | zero =>
    intro l hl
    simp [applySeq, emptyGraph] at hl
  | succ k ih =>
    by_cases hk : k < steps.length
    · rw [List.take_succ, List.getElem?_eq_getElem hk]
      simp only [Option.toList]
      unfold applySeq
      rw [List.foldl_append]
      simp only [List.foldl_cons, List.foldl_nil]
      exact handleGraphUpdate_closed ih (fun f hf => hfoc k hk f hf)
    · push_neg at hk
      rw [List.take_succ, List.getElem?_eq_none hk]
      simp only [Option.toList, List.append_nil]
      exact ih

/-- Witness for C1: a concrete two-call sequence (the second call focused
on `"a"`, which exists after the first) keeps all links closed. -/
theorem C1_no_dangling_links_witness :
    linksClosed (applySeq emptyGraph
      [(⟨[⟨some "a", some "A", 10⟩], []⟩, none),
       (⟨[⟨some "b", some "B", 5⟩], [⟨some "a", some "b", 4⟩]⟩, some "a")]) := by
  have h := C1_no_dangling_links
    [(⟨[⟨some "a", some "A", 10⟩], []⟩, none),
     (⟨[⟨some "b", some "B", 5⟩], [⟨some "a", some "b", 4⟩]⟩, some "a")]
    (by
      intro i hi f hf
      have hi2 : i < 2 := by simpa using hi
      interval_cases i
      · simp at hf
      · have hf' : f = "a" := by simpa using hf.symm
        subst hf'
        decide)
    2
  simpa using h

/-! ### Claim C3 -/

/-- C3: For every graph containing a node with id `i` (node ids unique, as
the store maintains) and importance `v`, applying a concept event
`{id: i, importance: w}` leaves the node count unchanged (no duplicate
node is created) and sets that node's importance to `min(20, v + w*0.5)`,
i.e. the node array is rewritten pointwise with exactly that one value
change. -/
theorem C3_concept_remerge (prev : GraphData) (focus : Option String)
    (i lbl : JStr) (w : ℚ) (n : GraphNode)
    (hnd : (prev.nodes.map GraphNode.id).Nodup)
    (hn : n ∈ prev.nodes) (hid : n.id = i) :
    (handleGraphUpdate focus ⟨[⟨i, lbl, w⟩], []⟩ prev).nodes.length
        = prev.nodes.length ∧
    (handleGraphUpdate focus ⟨[⟨i, lbl, w⟩], []⟩ prev).nodes
        = prev.nodes.map (fun m =>
            if m.id = i then { m with val := jsMin 20 (m.val + w * (1/2)) } else m) := by
  have hkeys : ((prev.nodes.map fun n => (n.id, n)).map Prod.fst).Nodup := by
    simpa [List.map_map, Function.comp] using hnd
  have hself : mapOfList (prev.nodes.map fun n => (n.id, n))
      = prev.nodes.map fun n => (n.id, n) := mapOfList_self hkeys
  have hmem : (i, n) ∈ prev.nodes.map fun n => (n.id, n) :=
    List.mem_map.mpr ⟨n, hn, by rw [hid]⟩
  have hget : mapGet (prev.nodes.map fun n => (n.id, n)) i = some n :=
    mapGet_of_mem_nodup hkeys hmem
  have hhas : mapHas (prev.nodes.map fun n => (n.id, n)) i = true := by
    unfold mapHas
    rw [hget]
    rfl
  have hmain : (handleGraphUpdate focus ⟨[⟨i, lbl, w⟩], []⟩ prev).nodes
      = prev.nodes.map (fun m =>
          if m.id = i then { m with val := jsMin 20 (m.val + w * (1/2)) } else m) := by
    unfold handleGraphUpdate
    rw [hself]
    simp only [List.foldl_cons, List.foldl_nil]
    unfold applyConcept
    rw [hget]
    dsimp only
    rw [mapSet_eq_map_of_nodup hkeys hhas]
    unfold mapValues
    rw [List.map_map, List.map_map]
    apply List.map_congr_left
    intro m hm
    by_cases hmi : m.id = i
    · have hmn : m = n := List.inj_on_of_nodup_map hnd hm hn (by rw [hmi, hid])
      subst hmn
      simp [Function.comp, hmi]
    · simp [Function.comp, hmi]
  exact ⟨by rw [hmain]; exact List.length_map _ _, hmain⟩

/-- Witness for C3: a node `a` with importance 10 re-receiving importance
10 ends at `min(20, 10 + 5) = 15`, with the node count still 1. -/
theorem C3_concept_remerge_witness :
    (handleGraphUpdate none ⟨[⟨some "a", some "A", 10⟩], []⟩
        ⟨[⟨some "a", some "A", 10⟩], []⟩).nodes.length = 1 ∧
    (handleGraphUpdate none ⟨[⟨some "a", some "A", 10⟩], []⟩
        ⟨[⟨some "a", some "A", 10⟩], []⟩).nodes
      = [⟨some "a", some "A", 15⟩] := by
  have h := C3_concept_remerge ⟨[⟨some "a", some "A", 10⟩], []⟩ none
    (some "a") (some "A") 10 ⟨some "a", some "A", 10⟩
    (by decide) (by decide) rfl
  refine ⟨by simpa using h.1, ?_⟩
  rw [h.2]
  norm_num [jsMin]

/-! ### Claim C4 -/

/-- Rebuilding a map from its values (keyed by the stored key) is the
identity when entries are keyed consistently and keys are unique; this is
what happens between two `handleGraphUpdate` calls. -/
theorem mapOfList_values_self {κ α : Type} [DecidableEq κ] {m : List (κ × α)}
    (keyOf : α → κ) (hwf : ∀ p ∈ m, keyOf p.2 = p.1) (hnd : (mapKeys m).Nodup) :
    mapOfList ((mapValues m).map fun v => (keyOf v, v)) = m := by
  have heq : (mapValues m).map (fun v => (keyOf v, v)) = m := by
    unfold mapValues
    rw [List.map_map]
    calc m.map ((fun v => (keyOf v, v)) ∘ Prod.snd)
        = m.map id := by
          apply List.map_congr_left
          intro p hp
          show (keyOf p.2, p.2) = p
          rw [hwf p hp]
      _ = m := List.map_id m
  rw [heq]
  exact mapOfList_self hnd

/-- Does a stored link connect `a` and `b` (in either direction)? -/
def linkBetween (a b : String) (l : GraphLink) : Bool :=
  (decide (l.source = some a) && decide (l.target = some b)) ||
  (decide (l.source = some b) && decide (l.target = some a))

theorem linkBetween_iff {a b : String} {l : GraphLink} :
    linkBetween a b l = true ↔
      (l.source = some a ∧ l.target = some b) ∨
      (l.source = some b ∧ l.target = some a) := by
  simp [linkBetween]

/-- C4: For every graph with focused node `A` (a nonempty id), applying a
concept event introducing a new node `B` (`B` not in the graph, `B ≠ A`,
no existing link keyed between `A` and `B` in either direction) produces a
graph with exactly one link between `A` and `B`, directed `A→B`, with
strength 3; applying the same concept `B` again while focus is still `A`
adds no second link between `A` and `B`. -/
theorem C4_contextual_link (prev : GraphData) (a b : String) (lbl lbl2 : JStr)
    (imp imp2 : ℚ)
    (ha : a ≠ "") (hab : b ≠ a)
    (hnew : ∀ n ∈ prev.nodes, n.id ≠ some b)
    (hnolink : ∀ l ∈ prev.links,
      linkKeyOf l ≠ a ++ "-" ++ b ∧ linkKeyOf l ≠ b ++ "-" ++ a) :
    ((handleGraphUpdate (some a) ⟨[⟨some b, lbl, imp⟩], []⟩ prev).links.filter
        (linkBetween a b) = [⟨some a, some b, 3⟩]) ∧
    ((handleGraphUpdate (some a) ⟨[⟨some b, lbl2, imp2⟩], []⟩
        (handleGraphUpdate (some a) ⟨[⟨some b, lbl, imp⟩], []⟩ prev)).links.filter
        (linkBetween a b) = [⟨some a, some b, 3⟩]) := by
  set nm0 := mapOfList (prev.nodes.map fun n => (n.id, n)) with hnm0
  set lm0 := mapOfList (prev.links.map fun l => (linkKeyOf l, l)) with hlm0
  have hgetb : mapGet nm0 (some b) = none := by
    rw [← Option.not_isSome_iff_eq_none]
    intro hs
    rcases mapHas_nodesMap.mp hs with ⟨n, hn, hni⟩
    exact hnew n hn hni
  have hlmkeys : ∀ k : String, mapHas lm0 k = true → ∃ l ∈ prev.links, linkKeyOf l = k := by
    intro k hk
    rw [hlm0, mapHas_mapOfList] at hk
    rcases List.mem_map.mp hk with ⟨p, hp, hpk⟩
    rcases List.mem_map.mp hp with ⟨l, hl, hlp⟩
    exact ⟨l, hl, by rw [← hlp] at hpk; exact hpk⟩
  have hkeyab : mapHas lm0 (a ++ "-" ++ b) = false := by
    apply Bool.eq_false_iff.mpr
    intro hk
    rcases hlmkeys _ hk with ⟨l, hl, hlk⟩
    exact (hnolink l hl).1 hlk
  have hkeyba : mapHas lm0 (b ++ "-" ++ a) = false := by
    apply Bool.eq_false_iff.mpr
    intro hk
    rcases hlmkeys _ hk with ⟨l, hl, hlk⟩
    exact (hnolink l hl).2 hlk
  have hres1 : handleGraphUpdate (some a) ⟨[⟨some b, lbl, imp⟩], []⟩ prev
      = ⟨mapValues (mapSet nm0 (some b) ⟨some b, lbl, imp⟩),
         mapValues (mapSet lm0 (a ++ "-" ++ b) ⟨some a, some b, 3⟩)⟩ := by
    unfold handleGraphUpdate
    simp only [List.foldl_cons, List.foldl_nil]
    unfold applyConcept
    rw [← hnm0, ← hlm0, hgetb]
    dsimp only
    simp only [jsShow]
    rw [if_pos ⟨ha, by simpa using hab⟩,
      if_pos ⟨by simp [hkeyab], by simp [hkeyba]⟩]
  have hpart1 : (handleGraphUpdate (some a) ⟨[⟨some b, lbl, imp⟩], []⟩ prev).links.filter
      (linkBetween a b) = [⟨some a, some b, 3⟩] := by
    rw [hres1]
    dsimp only
    rw [mapSet_eq_append hkeyab]
    unfold mapValues
    rw [List.map_append, List.filter_append]
    have hnil : (lm0.map Prod.snd).filter (linkBetween a b) = [] := by
      rw [List.filter_eq_nil_iff]
      intro l hl
      have hl' : l ∈ prev.links := by
        have hl0 : l ∈ mapValues (mapOfList (prev.links.map fun l => (linkKeyOf l, l))) := hl
        have hmem := mem_mapValues_mapOfList hl0
        simpa [List.map_map] using hmem
      intro hpred
      rcases linkBetween_iff.mp hpred with ⟨hs, ht⟩ | ⟨hs, ht⟩
      · exact (hnolink l hl').1 (by simp [linkKeyOf, hs, ht, jsShow])
      · exact (hnolink l hl').2 (by simp [linkKeyOf, hs, ht, jsShow])
    rw [hnil]
    simp [linkBetween]
  refine ⟨hpart1, ?_⟩
  set lmF := mapSet lm0 (a ++ "-" ++ b) (⟨some a, some b, 3⟩ : GraphLink) with hlmF
  have hndF : (mapKeys lmF).Nodup := nodup_mapKeys_mapSet nodup_mapKeys_mapOfList
  have hwfF : ∀ p ∈ lmF, linkKeyOf p.2 = p.1 := by
    intro p hp
    rcases mem_mapSet hp with h | h
    · rw [h]
      simp [linkKeyOf, jsShow]
    · have hmem := mem_mapOfList h
      rcases List.mem_map.mp hmem with ⟨l, _, hlp⟩
      rw [← hlp]
  have hrebuild : mapOfList ((mapValues lmF).map fun l => (linkKeyOf l, l)) = lmF :=
    mapOfList_values_self linkKeyOf hwfF hndF
  have hhasb2 : mapHas (mapOfList
      ((handleGraphUpdate (some a) ⟨[⟨some b, lbl, imp⟩], []⟩ prev).nodes.map
        fun n => (n.id, n))) (some b) = true := by
    apply mapHas_nodesMap.mpr
    refine ⟨⟨some b, lbl, imp⟩, ?_, rfl⟩
    rw [hres1]
    exact mem_mapValues_mapSet_self
  rcases Option.isSome_iff_exists.mp hhasb2 with ⟨ex, hex⟩
  have hres2 : (handleGraphUpdate (some a) ⟨[⟨some b, lbl2, imp2⟩], []⟩
      (handleGraphUpdate (some a) ⟨[⟨some b, lbl, imp⟩], []⟩ prev)).links
      = (handleGraphUpdate (some a) ⟨[⟨some b, lbl, imp⟩], []⟩ prev).links := by
    conv_lhs => rw [handleGraphUpdate]
    simp only [List.foldl_cons, List.foldl_nil]
    unfold applyConcept
    rw [hex]
    dsimp only
    have hlinks1 : (handleGraphUpdate (some a) ⟨[⟨some b, lbl, imp⟩], []⟩ prev).links
        = mapValues lmF := by rw [hres1]
    rw [hlinks1, hrebuild]
  rw [hres2]
  exact hpart1

/-- Witness for C4: focus `"a"` over a one-node graph, new concept `"b"`
arriving twice: exactly one `a→b` link of strength 3 after each call. -/
theorem C4_contextual_link_witness :
    ((handleGraphUpdate (some "a") ⟨[⟨some "b", some "B", 5⟩], []⟩
        ⟨[⟨some "a", some "A", 10⟩], []⟩).links.filter
        (linkBetween "a" "b") = [⟨some "a", some "b", 3⟩]) ∧
    ((handleGraphUpdate (some "a") ⟨[⟨some "b", some "B", 5⟩], []⟩
        (handleGraphUpdate (some "a") ⟨[⟨some "b", some "B", 5⟩], []⟩
          ⟨[⟨some "a", some "A", 10⟩], []⟩)).links.filter
        (linkBetween "a" "b") = [⟨some "a", some "b", 3⟩]) :=
  C4_contextual_link ⟨[⟨some "a", some "A", 10⟩], []⟩ "a" "b"
    (some "B") (some "B") 5 5
    (by decide) (by decide) (by decide) (by decide)

/-! ### Claim C2 -/

/-- Counterexample to C2 as stated: the graph holds nodes `a`, `b` and the
link `a→b` (strength 2); the relationship event `{b, a, 4}` — the same
unordered pair, reverse direction — creates a second link `b→a` with raw
strength 4 instead of updating the existing one, so the graph ends with
two links over the unordered pair `{a,b}`. -/
theorem C2_unordered_pair_counterexample :
    ((handleGraphUpdate none ⟨[], [⟨some "b", some "a", 4⟩]⟩
        ⟨[⟨some "a", some "A", 1⟩, ⟨some "b", some "B", 1⟩],
         [⟨some "a", some "b", 2⟩]⟩).links
      = [⟨some "a", some "b", 2⟩, ⟨some "b", some "a", 4⟩]) ∧
    ((handleGraphUpdate none ⟨[], [⟨some "b", some "a", 4⟩]⟩
        ⟨[⟨some "a", some "A", 1⟩, ⟨some "b", some "B", 1⟩],
         [⟨some "a", some "b", 2⟩]⟩).links.filter (linkBetween "a" "b")).length = 2 := by
  constructor <;>
    simp [handleGraphUpdate, applyConcept, applyRelationship, mapOfList, mapGet,
      mapSet, mapHas, mapValues, jsMin, linkKeyOf, jsShow, linkBetween]

/-- C2 (amended): relationship events consult only the directed key
`source-target`.  If a link with exactly that directed key exists, its
strength is updated to `min(10, strength + incoming*0.5)` and no link is
created; otherwise — even when a reverse-direction link for the same
unordered pair exists — a new link is appended with the raw supplied
strength, so two links over the same unordered pair can coexist. -/
theorem C2_directed_key_merge (prev : GraphData) (r : Relationship)
    (focus : Option String)
    (hnd : (prev.links.map linkKeyOf).Nodup)
    (hsrc : ∃ n ∈ prev.nodes, n.id = r.source_id)
    (htgt : ∃ n ∈ prev.nodes, n.id = r.target_id) :
    ((∀ l ∈ prev.links,
        linkKeyOf l ≠ jsShow r.source_id ++ "-" ++ jsShow r.target_id) →
      (handleGraphUpdate focus ⟨[], [r]⟩ prev).links
        = prev.links ++ [⟨r.source_id, r.target_id, r.strength⟩]) ∧
    ((∃ l ∈ prev.links,
        linkKeyOf l = jsShow r.source_id ++ "-" ++ jsShow r.target_id) →
      (handleGraphUpdate focus ⟨[], [r]⟩ prev).links
        = prev.links.map (fun l =>
            if linkKeyOf l = jsShow r.source_id ++ "-" ++ jsShow r.target_id
            then { l with value := jsMin 10 (l.value + r.strength * (1/2)) }
            else l)) := by
  set key := jsShow r.source_id ++ "-" ++ jsShow r.target_id with hkey
  have hkeys : ((prev.links.map fun l => (linkKeyOf l, l)).map Prod.fst).Nodup := by
    simpa [List.map_map, Function.comp] using hnd
  have hself : mapOfList (prev.links.map fun l => (linkKeyOf l, l))
      = prev.links.map fun l => (linkKeyOf l, l) := mapOfList_self hkeys
  have hvals : mapValues (prev.links.map fun l => (linkKeyOf l, l)) = prev.links := by
    unfold mapValues
    rw [List.map_map]
    exact List.map_id prev.links
  have hguard : mapHas (mapOfList (prev.nodes.map fun n => (n.id, n))) r.source_id = true
      ∧ mapHas (mapOfList (prev.nodes.map fun n => (n.id, n))) r.target_id = true :=
    ⟨mapHas_nodesMap.mpr hsrc, mapHas_nodesMap.mpr htgt⟩
  constructor
  · intro hmiss
    have hhas : mapHas (prev.links.map fun l => (linkKeyOf l, l)) key = false := by
      apply Bool.eq_false_iff.mpr
      intro hk
      rw [mapHas_iff_mem_keys] at hk
      unfold mapKeys at hk
      rw [List.map_map] at hk
      rcases List.mem_map.mp hk with ⟨l, hl, hlk⟩
      exact hmiss l hl hlk
    have hget : mapGet (prev.links.map fun l => (linkKeyOf l, l)) key = none := by
      have := hhas
      unfold mapHas at this
      exact Option.not_isSome_iff_eq_none.mp (by rw [this]; exact Bool.false_ne_true)
    unfold handleGraphUpdate
    simp only [List.foldl_nil, List.foldl_cons]
    unfold applyRelationship
    rw [hself, ← hkey, hget, if_pos hguard]
    dsimp only
    rw [mapSet_eq_append hhas]
    unfold mapValues
    rw [List.map_append]
    rw [show (prev.links.map fun l => (linkKeyOf l, l)).map Prod.snd = prev.links from by
      rw [List.map_map]; exact List.map_id prev.links]
    rfl
  · rintro ⟨l0, hl0, hl0k⟩
    have hmem : (key, l0) ∈ prev.links.map fun l => (linkKeyOf l, l) :=
      List.mem_map.mpr ⟨l0, hl0, by rw [hl0k]⟩
    have hget : mapGet (prev.links.map fun l => (linkKeyOf l, l)) key = some l0 :=
      mapGet_of_mem_nodup hkeys hmem
    have hhas : mapHas (prev.links.map fun l => (linkKeyOf l, l)) key = true := by
      unfold mapHas
      rw [hget]
      rfl
    unfold handleGraphUpdate
    simp only [List.foldl_nil, List.foldl_cons]
    unfold applyRelationship
    rw [hself, ← hkey, hget, if_pos hguard]
    dsimp only
    rw [mapSet_eq_map_of_nodup (by simpa [mapKeys] using hkeys) hhas]
    unfold mapValues
    rw [List.map_map, List.map_map]
    apply List.map_congr_left
    intro l hl
    by_cases hlk : linkKeyOf l = key
    · have hll0 : l = l0 := List.inj_on_of_nodup_map hnd hl hl0 (by rw [hlk, hl0k])
      subst hll0
      simp [Function.comp, hlk]
    · simp [Function.comp, hlk]

/-- Witness for C2 (amended): with an `a→b` link present, the reverse
relationship `{b, a, 4}` misses the directed key and appends a second raw
link `b→a`. -/
theorem C2_directed_key_merge_witness :
    (handleGraphUpdate none ⟨[], [⟨some "b", some "a", 4⟩]⟩
        ⟨[⟨some "a", some "A", 1⟩, ⟨some "b", some "B", 1⟩],
         [⟨some "a", some "b", 2⟩]⟩).links
      = [⟨some "a", some "b", 2⟩, ⟨some "b", some "a", 4⟩] := by
  have h := (C2_directed_key_merge
    ⟨[⟨some "a", some "A", 1⟩, ⟨some "b", some "B", 1⟩],
     [⟨some "a", some "b", 2⟩]⟩
    ⟨some "b", some "a", 4⟩ none
    (by decide) (by decide) (by decide)).1 (by decide)
  simpa using h

/-! ### Claim C9 -/

/-- Counterexample to C9 as stated: a batch holding a concept with a
missing id (`undefined`) plus a well-formed concept.  The claim predicts
one node (the malformed entry skipped); the code creates two, including a
node stored under the `undefined` id. -/
theorem C9_malformed_skip_counterexample :
    (handleGraphUpdate none
        ⟨[⟨none, some "X", 5⟩, ⟨some "a", some "A", 3⟩], []⟩ emptyGraph).nodes
      = [⟨none, some "X", 5⟩, ⟨some "a", some "A", 3⟩] := by
  simp [handleGraphUpdate, applyConcept, mapOfList, mapGet, mapSet, mapHas,
    mapValues, emptyGraph]

/-- C9 (amended): a concept entry with a missing id (or label) is NOT
skipped — `handleGraphUpdate` performs no well-formedness check.  The
malformed entry is merged like any other, keyed by the `undefined` id
(missing fields stored as `undefined`), and the remaining entries of the
batch are applied as usual. -/
theorem C9_malformed_not_skipped (prev : GraphData) (lblB : JStr) (impB : ℚ)
    (g : String) (lblG : JStr) (impG : ℚ)
    (hnd : (prev.nodes.map GraphNode.id).Nodup)
    (hnone : ∀ n ∈ prev.nodes, n.id ≠ none)
    (hg : ∀ n ∈ prev.nodes, n.id ≠ some g) :
    (handleGraphUpdate none
        ⟨[⟨none, lblB, impB⟩, ⟨some g, lblG, impG⟩], []⟩ prev).nodes
      = prev.nodes ++ [⟨none, lblB, impB⟩, ⟨some g, lblG, impG⟩] := by
  set nm0 := mapOfList (prev.nodes.map fun n => (n.id, n)) with hnm0
  have hhasnone : mapHas nm0 none = false := by
    apply Bool.eq_false_iff.mpr
    intro hk
    rcases mapHas_nodesMap.mp hk with ⟨n, hn, hni⟩
    exact hnone n hn hni
  have hgetnone : mapGet nm0 none = none :=
    Option.not_isSome_iff_eq_none.mp (by
      unfold mapHas at hhasnone
      rw [hhasnone]
      exact Bool.false_ne_true)
  have hhasg : mapHas (mapSet nm0 none ⟨none, lblB, impB⟩) (some g) = false := by
    apply Bool.eq_false_iff.mpr
    intro hk
    rcases mapHas_mapSet.mp hk with hk' | hk'
    · rcases mapHas_nodesMap.mp hk' with ⟨n, hn, hni⟩
      exact hg n hn hni
    · exact Option.noConfusion hk'
  have hgetg : mapGet (mapSet nm0 none ⟨none, lblB, impB⟩) (some g) = none :=
    Option.not_isSome_iff_eq_none.mp (by
      unfold mapHas at hhasg
      rw [hhasg]
      exact Bool.false_ne_true)
  have hvals : mapValues nm0 = prev.nodes := by
    rw [hnm0, mapOfList_self (by simpa [List.map_map, Function.comp] using hnd)]
    unfold mapValues
    rw [List.map_map]
    exact List.map_id prev.nodes
  set lm0 := mapOfList (prev.links.map fun l => (linkKeyOf l, l)) with hlm0
  have hstep1 : applyConcept none (nm0, lm0) ⟨none, lblB, impB⟩
      = (mapSet nm0 none ⟨none, lblB, impB⟩, lm0) := by
    unfold applyConcept
    dsimp only
    rw [hgetnone]
  have hstep2 : applyConcept none (mapSet nm0 none ⟨none, lblB, impB⟩, lm0)
        ⟨some g, lblG, impG⟩
      = (mapSet (mapSet nm0 none ⟨none, lblB, impB⟩) (some g)
          ⟨some g, lblG, impG⟩, lm0) := by
    unfold applyConcept
    dsimp only
    rw [hgetg]
  unfold handleGraphUpdate
  simp only [List.foldl_cons, List.foldl_nil]
  rw [← hnm0, ← hlm0, hstep1, hstep2]
  dsimp only
  rw [mapSet_eq_append hhasg, mapSet_eq_append hhasnone]
  unfold mapValues
  rw [List.map_append, List.map_append]
  rw [show nm0.map Prod.snd = prev.nodes from hvals]
  simp

/-- Witness for C9 (amended): over a one-node graph, a malformed concept
(missing id) and a well-formed concept `"a"` both produce nodes. -/
theorem C9_malformed_not_skipped_witness :
    (handleGraphUpdate none
        ⟨[⟨none, some "X", 5⟩, ⟨some "a", some "A", 3⟩], []⟩
        ⟨[⟨some "x", some "Xold", 1⟩], []⟩).nodes
      = [⟨some "x", some "Xold", 1⟩, ⟨none, some "X", 5⟩, ⟨some "a", some "A", 3⟩] := by
  have h := C9_malformed_not_skipped ⟨[⟨some "x", some "Xold", 1⟩], []⟩
    (some "X") 5 "a" (some "A") 3 (by decide) (by decide) (by decide)
  simpa using h

/-! ### Gesture-machine run lemmas -/

theorem gestureRun_append {st : GestureState} {xs ys : List FrameIn} :
    gestureRun st (xs ++ ys)
      = ((gestureRun (gestureRun st xs).1 ys).1,
         (gestureRun st xs).2 ++ (gestureRun (gestureRun st xs).1 ys).2) := by
  induction xs generalizing st with
  | nil => simp [gestureRun]
  | cons f fs ih =>
    show gestureRun st (f :: (fs ++ ys)) = _
    simp only [gestureRun]
    rw [ih]
    simp [List.append_assoc]

/-- A hand-lost or non-neutral frame never clears `hasTriggeredRef`: with
`armed` set, no event fires and `armed` stays set. -/
theorem gestureRun_armed_no_events {fs : List FrameIn}
    (hall : ∀ f ∈ fs, ∀ hf, f.hand = some hf → ¬ isNeutralFrame hf) :
    ∀ st : GestureState, st.armed = true →
      (gestureRun st fs).2 = [] ∧ (gestureRun st fs).1.armed = true := by
  induction fs with
  | nil => intro st h; exact ⟨rfl, h⟩
  | cons f fs ih =>
    intro st harm
    have hstep : (gestureStep st f).1.armed = true ∧ (gestureStep st f).2 = none := by
      unfold gestureStep
      cases hh : f.hand with
      | none => exact ⟨harm, rfl⟩
      | some hf =>
        have hnn := hall f (by simp) hf hh
        dsimp only
        by_cases hp : isPinchingFrame hf
        · rw [if_pos hp, if_neg (by simp [harm])]
          exact ⟨harm, rfl⟩
        · by_cases ho : isOpenFrame hf
          · rw [if_neg hp, if_pos ho, if_neg (by simp [harm])]
            exact ⟨harm, rfl⟩
          · exact absurd ⟨hp, ho⟩ hnn
    have hrest := ih (fun f hf => hall f (List.mem_cons_of_mem _ hf)) _ hstep.1
    simp only [gestureRun, hstep.2, Option.toList, List.nil_append]
    exact hrest

/-- From an unarmed state with pinch count `p ≤ 5`, a run of pinching
frames with a stable nonempty hover `h` distinct from the focus that
pushes the counter past 5 fires exactly one `Select h` and arms. -/
theorem gestureRun_pinch_fires {h : String} (hne : h ≠ "") {fs : List FrameIn}
    (hall : ∀ f ∈ fs, f.hover = some h ∧ f.focus ≠ some h ∧
      ∃ hf, f.hand = some hf ∧ isPinchingFrame hf) :
    ∀ p s : ℕ, p ≤ 5 → 5 < p + fs.length →
      (gestureRun ⟨p, s, false⟩ fs).2 = [GEvent.select h] ∧
      (gestureRun ⟨p, s, false⟩ fs).1.armed = true := by
  induction fs with
  | nil =>
    intro p s hp hlen
    simp only [List.length_nil, Nat.add_zero] at hlen
    omega
  | cons f fs ih =>
    intro p s hp hlen
    obtain ⟨hhov, hfoc, hf, hhand, hpinch⟩ := hall f (by simp)
    by_cases hp5 : p + 1 > 5
    · have hstep : gestureStep ⟨p, s, false⟩ f
          = (⟨p + 1, 0, true⟩, some (GEvent.select h)) := by
        unfold gestureStep
        rw [hhand]
        dsimp only
        rw [if_pos hpinch, if_pos ⟨hp5, rfl⟩, hhov]
        dsimp only
        rw [if_pos hne, if_pos hfoc]
      have hnnfs : ∀ f' ∈ fs, ∀ hf', f'.hand = some hf' → ¬ isNeutralFrame hf' := by
        intro f' hf' hf'' hh'
        obtain ⟨_, _, hfr, hhand', hpinch'⟩ := hall f' (List.mem_cons_of_mem _ hf')
        rw [hhand'] at hh'
        cases hh'
        exact fun hn => hn.1 hpinch'
      have hrest := gestureRun_armed_no_events hnnfs ⟨p + 1, 0, true⟩ rfl
      simp only [gestureRun, hstep, Option.toList]
      exact ⟨by rw [hrest.1]; simp, hrest.2⟩
    · have hstep : gestureStep ⟨p, s, false⟩ f
          = (⟨p + 1, 0, false⟩, none) := by
        unfold gestureStep
        rw [hhand]
        dsimp only
        rw [if_pos hpinch, if_neg (fun hc => hp5 hc.1)]
      have hrest := ih (fun f' hf' => hall f' (List.mem_cons_of_mem _ hf'))
        (p + 1) 0 (by omega) (by simp at hlen ⊢; omega)
      simp only [gestureRun, hstep, Option.toList, List.nil_append]
      exact hrest

/-- A neutral-classified frame resets both counters and disarms. -/
theorem gestureStep_neutral {st : GestureState} {f : FrameIn} {hf : HandFrame}
    (hh : f.hand = some hf) (hn : isNeutralFrame hf) :
    gestureStep st f = (⟨0, 0, false⟩, none) := by
  unfold gestureStep
  rw [hh]
  dsimp only
  rw [if_neg hn.1, if_neg hn.2]

/-! ### Claim C5 -/

/-- C5: From the initial gesture state, with a stable nonempty hover id `h`
distinct from the focus throughout, 10 consecutive pinching frames emit
exactly one `Select(h)`; 100 further pinching frames emit nothing more;
one neutral frame followed by 6 more pinching frames emits exactly one
further `Select(h)`. -/
theorem C5_pinch_debounce (h : String) (A B C : List FrameIn) (nf : FrameIn)
    (nhf : HandFrame) (hne : h ≠ "")
    (hA : ∀ f ∈ A, f.hover = some h ∧ f.focus ≠ some h ∧
      ∃ hf, f.hand = some hf ∧ isPinchingFrame hf)
    (hB : ∀ f ∈ B, f.hover = some h ∧ f.focus ≠ some h ∧
      ∃ hf, f.hand = some hf ∧ isPinchingFrame hf)
    (hC : ∀ f ∈ C, f.hover = some h ∧ f.focus ≠ some h ∧
      ∃ hf, f.hand = some hf ∧ isPinchingFrame hf)
    (hlenA : A.length = 10) (_hlenB : B.length = 100) (hlenC : C.length = 6)
    (hnf : nf.hand = some nhf) (hneut : isNeutralFrame nhf) :
    (gestureRun initGesture A).2 = [GEvent.select h] ∧
    (gestureRun initGesture (A ++ B)).2 = [GEvent.select h] ∧
    (gestureRun initGesture (A ++ B ++ [nf] ++ C)).2
      = [GEvent.select h, GEvent.select h] := by
  have hnnB : ∀ f ∈ B, ∀ hf, f.hand = some hf → ¬ isNeutralFrame hf := by
    intro f hf hf' hh'
    obtain ⟨_, _, hfr, hhand', hpinch'⟩ := hB f hf
    rw [hhand'] at hh'
    cases hh'
    exact fun hn => hn.1 hpinch'
  have hpartA : (gestureRun initGesture A).2 = [GEvent.select h] ∧
      (gestureRun initGesture A).1.armed = true :=
    gestureRun_pinch_fires hne hA 0 0 (by omega) (by omega)
  have hstA : (gestureRun initGesture A).1.armed = true := hpartA.2
  have hpartB := gestureRun_armed_no_events hnnB (gestureRun initGesture A).1 hstA
  have hAB : gestureRun initGesture (A ++ B)
      = ((gestureRun (gestureRun initGesture A).1 B).1,
         (gestureRun initGesture A).2 ++ (gestureRun (gestureRun initGesture A).1 B).2) :=
    gestureRun_append
  have hABev : (gestureRun initGesture (A ++ B)).2 = [GEvent.select h] := by
    rw [hAB]
    dsimp only
    rw [hpartA.1, hpartB.1]
    simp
  have hnstep : gestureRun (gestureRun initGesture (A ++ B)).1 [nf]
      = (⟨0, 0, false⟩, []) := by
    simp only [gestureRun, gestureStep_neutral hnf hneut, Option.toList]
    simp
  have hpartC := gestureRun_pinch_fires hne hC 0 0 (by omega) (by omega)
  have hsplit1 : gestureRun initGesture ((A ++ B ++ [nf]) ++ C)
      = ((gestureRun (gestureRun initGesture (A ++ B ++ [nf])).1 C).1,
         (gestureRun initGesture (A ++ B ++ [nf])).2 ++
           (gestureRun (gestureRun initGesture (A ++ B ++ [nf])).1 C).2) :=
    gestureRun_append
  have hsplit2 : gestureRun initGesture ((A ++ B) ++ [nf])
      = ((gestureRun (gestureRun initGesture (A ++ B)).1 [nf]).1,
         (gestureRun initGesture (A ++ B)).2 ++
           (gestureRun (gestureRun initGesture (A ++ B)).1 [nf]).2) :=
    gestureRun_append
  refine ⟨hpartA.1, hABev, ?_⟩
  rw [hsplit1, hsplit2]
  dsimp only
  rw [hnstep]
  dsimp only
  rw [hABev, hpartC.1]
  simp

/-- Witness for C5: concrete pinching frames (thumb and index tips both at
the origin, squared distance 0) with hover `"n1"` and no focus; the
neutral frame has squared distance `1/100`, between the two thresholds. -/
theorem C5_pinch_debounce_witness :
    (gestureRun initGesture
      (List.replicate 10 ⟨some ⟨⟨0, 0⟩, ⟨0, 0⟩⟩, some "n1", none⟩)).2
      = [GEvent.select "n1"] ∧
    (gestureRun initGesture
      (List.replicate 10 ⟨some ⟨⟨0, 0⟩, ⟨0, 0⟩⟩, some "n1", none⟩ ++
       List.replicate 100 ⟨some ⟨⟨0, 0⟩, ⟨0, 0⟩⟩, some "n1", none⟩)).2
      = [GEvent.select "n1"] ∧
    (gestureRun initGesture
      (List.replicate 10 ⟨some ⟨⟨0, 0⟩, ⟨0, 0⟩⟩, some "n1", none⟩ ++
       List.replicate 100 ⟨some ⟨⟨0, 0⟩, ⟨0, 0⟩⟩, some "n1", none⟩ ++
       [⟨some ⟨⟨0, 0⟩, ⟨1/10, 0⟩⟩, some "n1", none⟩] ++
       List.replicate 6 ⟨some ⟨⟨0, 0⟩, ⟨0, 0⟩⟩, some "n1", none⟩)).2
      = [GEvent.select "n1", GEvent.select "n1"] := by
  have hpinch : isPinchingFrame ⟨⟨0, 0⟩, ⟨0, 0⟩⟩ := by
    norm_num [isPinchingFrame, pinchDistSq]
  have hprop : ∀ (k : ℕ) (f : FrameIn),
      f ∈ List.replicate k (⟨some ⟨⟨0, 0⟩, ⟨0, 0⟩⟩, some "n1", none⟩ : FrameIn) →
      f.hover = some "n1" ∧ f.focus ≠ some "n1" ∧
        ∃ hf, f.hand = some hf ∧ isPinchingFrame hf := by
    intro k f hf
    have := List.eq_of_mem_replicate hf
    subst this
    exact ⟨rfl, by simp, ⟨⟨⟨0, 0⟩, ⟨0, 0⟩⟩, rfl, hpinch⟩⟩
  exact C5_pinch_debounce "n1"
    (List.replicate 10 ⟨some ⟨⟨0, 0⟩, ⟨0, 0⟩⟩, some "n1", none⟩)
    (List.replicate 100 ⟨some ⟨⟨0, 0⟩, ⟨0, 0⟩⟩, some "n1", none⟩)
    (List.replicate 6 ⟨some ⟨⟨0, 0⟩, ⟨0, 0⟩⟩, some "n1", none⟩)
    ⟨some ⟨⟨0, 0⟩, ⟨1/10, 0⟩⟩, some "n1", none⟩ ⟨⟨0, 0⟩, ⟨1/10, 0⟩⟩
    (by decide) (hprop 10) (hprop 100) (hprop 6)
    (by simp) (by simp) (by simp) rfl
    (by constructor <;> norm_num [isPinchingFrame, isOpenFrame, pinchDistSq])

/-! ### Claim C6 -/

/-- Counterexample to C6 as stated: a pinching frame (squared distance 0)
with the pinch counter crossing the threshold (5 → 6 > 5), armed false and
an empty hover: the claim says armed is set to true on that frame, but the
code leaves it false (the `hasTriggeredRef.current = true` assignment sits
inside the `if (hoveredNodeId)` block). -/
theorem C6_arm_on_empty_hover_counterexample :
    (gestureStep ⟨5, 0, false⟩ ⟨some ⟨⟨0, 0⟩, ⟨0, 0⟩⟩, none, none⟩).1
        = ⟨6, 0, false⟩ ∧
    (gestureStep ⟨5, 0, false⟩ ⟨some ⟨⟨0, 0⟩, ⟨0, 0⟩⟩, none, none⟩).2 = none := by
  constructor <;> norm_num [gestureStep, isPinchingFrame, pinchDistSq]

/-- C6 (amended): on a pinching frame crossing the pinch threshold
(counter `> 5`) while unarmed, the machine arms only when a nonempty hover
id exists: if it differs from the focus a `Select` fires, and if it equals
the focus nothing fires but armed is still set; when the hover id is null
or empty, armed stays false (so the trigger IS re-evaluated on later
frames of the same sustained pinch) and no event fires. -/
theorem C6_arming_rules (st : GestureState) (f : FrameIn) (hf : HandFrame)
    (hh : f.hand = some hf) (hp : isPinchingFrame hf)
    (hcnt : st.pinch + 1 > 5) (harm : st.armed = false) :
    (∀ x : String, f.hover = some x → x ≠ "" → f.focus ≠ some x →
      gestureStep st f = (⟨st.pinch + 1, 0, true⟩, some (GEvent.select x))) ∧
    (∀ x : String, f.hover = some x → x ≠ "" → f.focus = some x →
      gestureStep st f = (⟨st.pinch + 1, 0, true⟩, none)) ∧
    (f.hover = none ∨ f.hover = some "" →
      gestureStep st f = (⟨st.pinch + 1, 0, false⟩, none)) := by
  refine ⟨?_, ?_, ?_⟩
  · intro x hx hxne hxfoc
    unfold gestureStep
    rw [hh]
    dsimp only
    rw [if_pos hp, if_pos ⟨hcnt, harm⟩, hx]
    dsimp only
    rw [if_pos hxne, if_pos hxfoc]
  · intro x hx hxne hxfoc
    unfold gestureStep
    rw [hh]
    dsimp only
    rw [if_pos hp, if_pos ⟨hcnt, harm⟩, hx]
    dsimp only
    rw [if_pos hxne, if_neg (by rw [hxfoc]; simp)]
  · intro hx
    unfold gestureStep
    rw [hh]
    dsimp only
    rw [if_pos hp, if_pos ⟨hcnt, harm⟩]
    rcases hx with hx | hx
    · rw [hx]
      dsimp only
      rw [harm]
    · rw [hx]
      dsimp only
      rw [if_neg (by simp), harm]

/-- Witness for C6 (amended): with hover equal to the focus (`"a"`), the
threshold-crossing pinch frame arms without emitting; with empty hover it
neither arms nor emits. -/
theorem C6_arming_rules_witness :
    (gestureStep ⟨5, 0, false⟩ ⟨some ⟨⟨0, 0⟩, ⟨0, 0⟩⟩, some "a", some "a"⟩
        = (⟨6, 0, true⟩, none)) ∧
    (gestureStep ⟨5, 0, false⟩ ⟨some ⟨⟨0, 0⟩, ⟨0, 0⟩⟩, none, some "a"⟩
        = (⟨6, 0, false⟩, none)) := by
  have hp : isPinchingFrame ⟨⟨0, 0⟩, ⟨0, 0⟩⟩ := by
    norm_num [isPinchingFrame, pinchDistSq]
  constructor
  · exact (C6_arming_rules ⟨5, 0, false⟩ ⟨some ⟨⟨0, 0⟩, ⟨0, 0⟩⟩, some "a", some "a"⟩
      ⟨⟨0, 0⟩, ⟨0, 0⟩⟩ rfl hp (by decide) rfl).2.1 "a" rfl (by decide) rfl
  · exact (C6_arming_rules ⟨5, 0, false⟩ ⟨some ⟨⟨0, 0⟩, ⟨0, 0⟩⟩, none, some "a"⟩
      ⟨⟨0, 0⟩, ⟨0, 0⟩⟩ rfl hp (by decide) rfl).2.2 (Or.inl rfl)

/-! ### Claim C7 -/

/-- Any frame on which an event is emitted leaves the machine armed. -/
theorem gestureStep_emit_armed {st : GestureState} {f : FrameIn} {ev : GEvent}
    (he : (gestureStep st f).2 = some ev) :
    (gestureStep st f).1.armed = true := by
  obtain ⟨hand, hover, focus⟩ := f
  unfold gestureStep at he ⊢
  cases hand with
  | none => exact Option.noConfusion he
  | some hf =>
    dsimp only at he ⊢
    by_cases hp : isPinchingFrame hf
    · rw [if_pos hp] at he ⊢
      by_cases hc : st.pinch + 1 > 5 ∧ st.armed = false
      · rw [if_pos hc] at he ⊢
        cases hover with
        | none => exact Option.noConfusion he
        | some hov =>
          dsimp only at he ⊢
          by_cases hne : hov ≠ ""
          · rw [if_pos hne] at he ⊢
            by_cases hfoc : focus ≠ some hov
            · rw [if_pos hfoc]
            · rw [if_neg hfoc]
          · rw [if_neg hne] at he
            exact Option.noConfusion he
      · rw [if_neg hc] at he
        exact Option.noConfusion he
    · rw [if_neg hp] at he ⊢
      by_cases ho : isOpenFrame hf
      · rw [if_pos ho] at he ⊢
        by_cases hc : st.spread + 1 > 8 ∧ st.armed = false
        · rw [if_pos hc] at he ⊢
          cases focus with
          | none => rfl
          | some foc =>
            dsimp only at he ⊢
            by_cases hne : foc ≠ ""
            · rw [if_pos hne]
            · rw [if_neg hne]
        · rw [if_neg hc] at he
          exact Option.noConfusion he
      · rw [if_neg ho] at he
        exact Option.noConfusion he

/-- Without a neutral-classified frame, the run emits at most one event
from any start state: the first emission arms the machine, and only a
neutral frame disarms it. -/
theorem gestureRun_le_one_of_no_neutral {inputs : List FrameIn}
    (hnn : ∀ f ∈ inputs, ∀ hf, f.hand = some hf → ¬ isNeutralFrame hf) :
    ∀ st : GestureState, (gestureRun st inputs).2.length ≤ 1 := by
  induction inputs with
  | nil => intro st; simp [gestureRun]
  | cons f fs ih =>
    intro st
    cases he : (gestureStep st f).2 with
    | none =>
      simp only [gestureRun, he, Option.toList, List.nil_append]
      exact ih (fun f' hf' => hnn f' (List.mem_cons_of_mem _ hf')) _
    | some ev =>
      have harm := gestureStep_emit_armed he
      have hrest := gestureRun_armed_no_events
        (fun f' hf' => hnn f' (List.mem_cons_of_mem _ hf')) _ harm
      simp only [gestureRun, he, Option.toList, hrest.1]
      simp

/-- C7: For every frame sequence in which no frame is classified as
neutral (a sustained single gesture from the initial state, hand-lost
frames allowed), at most one event is emitted over the whole sequence;
and a pinch-frames → neutral frame → pinch-frames sequence can emit a
second Select. -/
theorem C7_single_gesture_single_event :
    (∀ inputs : List FrameIn,
      (∀ f ∈ inputs, ∀ hf, f.hand = some hf → ¬ isNeutralFrame hf) →
      (gestureRun initGesture inputs).2.length ≤ 1) ∧
    (∃ (A C : List FrameIn) (nf : FrameIn) (h : String),
      (∀ f ∈ A, ∃ hf, f.hand = some hf ∧ isPinchingFrame hf) ∧
      (∀ f ∈ C, ∃ hf, f.hand = some hf ∧ isPinchingFrame hf) ∧
      (∃ nhf, nf.hand = some nhf ∧ isNeutralFrame nhf) ∧
      (gestureRun initGesture (A ++ [nf] ++ C)).2
        = [GEvent.select h, GEvent.select h]) := by
  constructor
  · intro inputs hnn
    exact gestureRun_le_one_of_no_neutral hnn initGesture
  · have hpinch : isPinchingFrame ⟨⟨0, 0⟩, ⟨0, 0⟩⟩ := by
      norm_num [isPinchingFrame, pinchDistSq]
    have hneut : isNeutralFrame ⟨⟨0, 0⟩, ⟨1/10, 0⟩⟩ := by
      constructor <;> norm_num [isPinchingFrame, isOpenFrame, pinchDistSq]
    refine ⟨List.replicate 6 ⟨some ⟨⟨0, 0⟩, ⟨0, 0⟩⟩, some "a", none⟩,
      List.replicate 6 ⟨some ⟨⟨0, 0⟩, ⟨0, 0⟩⟩, some "a", none⟩,
      ⟨some ⟨⟨0, 0⟩, ⟨1/10, 0⟩⟩, none, none⟩, "a", ?_, ?_, ?_, ?_⟩
    · intro f hf
      have := List.eq_of_mem_replicate hf
      subst this
      exact ⟨⟨⟨0, 0⟩, ⟨0, 0⟩⟩, rfl, hpinch⟩
    · intro f hf
      have := List.eq_of_mem_replicate hf
      subst this
      exact ⟨⟨⟨0, 0⟩, ⟨0, 0⟩⟩, rfl, hpinch⟩
    · exact ⟨⟨⟨0, 0⟩, ⟨1/10, 0⟩⟩, rfl, hneut⟩
    · have hprop : ∀ f ∈ List.replicate 6
          (⟨some ⟨⟨0, 0⟩, ⟨0, 0⟩⟩, some "a", none⟩ : FrameIn),
          f.hover = some "a" ∧ f.focus ≠ some "a" ∧
            ∃ hf, f.hand = some hf ∧ isPinchingFrame hf := by
        intro f hf
        have := List.eq_of_mem_replicate hf
        subst this
        exact ⟨rfl, by simp, ⟨⟨⟨0, 0⟩, ⟨0, 0⟩⟩, rfl, hpinch⟩⟩
      have hpartA : (gestureRun initGesture (List.replicate 6
            (⟨some ⟨⟨0, 0⟩, ⟨0, 0⟩⟩, some "a", none⟩ : FrameIn))).2
            = [GEvent.select "a"] ∧
          (gestureRun initGesture (List.replicate 6
            (⟨some ⟨⟨0, 0⟩, ⟨0, 0⟩⟩, some "a", none⟩ : FrameIn))).1.armed = true :=
        gestureRun_pinch_fires (by decide) hprop 0 0 (by omega) (by simp)
      have hpartC : (gestureRun ⟨0, 0, false⟩ (List.replicate 6
            (⟨some ⟨⟨0, 0⟩, ⟨0, 0⟩⟩, some "a", none⟩ : FrameIn))).2
            = [GEvent.select "a"] ∧
          (gestureRun ⟨0, 0, false⟩ (List.replicate 6
            (⟨some ⟨⟨0, 0⟩, ⟨0, 0⟩⟩, some "a", none⟩ : FrameIn))).1.armed = true :=
        gestureRun_pinch_fires (by decide) hprop 0 0 (by omega) (by simp)
      have hsplit1 : gestureRun initGesture
          ((List.replicate 6 (⟨some ⟨⟨0, 0⟩, ⟨0, 0⟩⟩, some "a", none⟩ : FrameIn) ++
            [⟨some ⟨⟨0, 0⟩, ⟨1/10, 0⟩⟩, none, none⟩]) ++
           List.replicate 6 ⟨some ⟨⟨0, 0⟩, ⟨0, 0⟩⟩, some "a", none⟩)
          = ((gestureRun (gestureRun initGesture
              (List.replicate 6 (⟨some ⟨⟨0, 0⟩, ⟨0, 0⟩⟩, some "a", none⟩ : FrameIn) ++
               [⟨some ⟨⟨0, 0⟩, ⟨1/10, 0⟩⟩, none, none⟩])).1
              (List.replicate 6 ⟨some ⟨⟨0, 0⟩, ⟨0, 0⟩⟩, some "a", none⟩)).1,
             (gestureRun initGesture
              (List.replicate 6 (⟨some ⟨⟨0, 0⟩, ⟨0, 0⟩⟩, some "a", none⟩ : FrameIn) ++
               [⟨some ⟨⟨0, 0⟩, ⟨1/10, 0⟩⟩, none, none⟩])).2 ++
             (gestureRun (gestureRun initGesture
              (List.replicate 6 (⟨some ⟨⟨0, 0⟩, ⟨0, 0⟩⟩, some "a", none⟩ : FrameIn) ++
               [⟨some ⟨⟨0, 0⟩, ⟨1/10, 0⟩⟩, none, none⟩])).1
              (List.replicate 6 ⟨some ⟨⟨0, 0⟩, ⟨0, 0⟩⟩, some "a", none⟩)).2) :=
        gestureRun_append
      have hsplit2 : gestureRun initGesture
          (List.replicate 6 (⟨some ⟨⟨0, 0⟩, ⟨0, 0⟩⟩, some "a", none⟩ : FrameIn) ++
           [⟨some ⟨⟨0, 0⟩, ⟨1/10, 0⟩⟩, none, none⟩])
          = ((gestureRun (gestureRun initGesture
              (List.replicate 6 (⟨some ⟨⟨0, 0⟩, ⟨0, 0⟩⟩, some "a", none⟩ : FrameIn))).1
              [⟨some ⟨⟨0, 0⟩, ⟨1/10, 0⟩⟩, none, none⟩]).1,
             (gestureRun initGesture
              (List.replicate 6 (⟨some ⟨⟨0, 0⟩, ⟨0, 0⟩⟩, some "a", none⟩ : FrameIn))).2 ++
             (gestureRun (gestureRun initGesture
              (List.replicate 6 (⟨some ⟨⟨0, 0⟩, ⟨0, 0⟩⟩, some "a", none⟩ : FrameIn))).1
              [⟨some ⟨⟨0, 0⟩, ⟨1/10, 0⟩⟩, none, none⟩]).2) :=
        gestureRun_append
      have hneutstep : ∀ st : GestureState,
          gestureRun st [(⟨some ⟨⟨0, 0⟩, ⟨1/10, 0⟩⟩, none, none⟩ : FrameIn)]
            = (⟨0, 0, false⟩, []) := by
        intro st
        have hneuteq : gestureStep st (⟨some ⟨⟨0, 0⟩, ⟨1/10, 0⟩⟩, none, none⟩ : FrameIn)
            = (⟨0, 0, false⟩, none) := gestureStep_neutral rfl hneut
        simp only [gestureRun, hneuteq, Option.toList]
        simp
      rw [hsplit1, hsplit2]
      dsimp only
      rw [hneutstep, hpartA.1]
      dsimp only
      rw [hpartC.1]
      simp

/-- Witness for C7: 200 pinching frames (no neutral frame) from the
initial state emit at most one event. -/
theorem C7_single_gesture_single_event_witness :
    (gestureRun initGesture
      (List.replicate 200 ⟨some ⟨⟨0, 0⟩, ⟨0, 0⟩⟩, some "a", none⟩)).2.length ≤ 1 := by
  apply C7_single_gesture_single_event.1
  intro f hf hfr hh
  have := List.eq_of_mem_replicate hf
  subst this
  cases hh
  intro hn
  exact hn.1 (by norm_num [isPinchingFrame, pinchDistSq])

/-! ### Hit-test fold lemmas -/

/-- If every positioned node is at least as far as the current bound, the
hit-test fold leaves the accumulator unchanged. -/
theorem hitFold_no_update {t : ViewTransform} {c : ℚ × ℚ} :
    ∀ (l : List VisNode) (acc : Option String × ℚ),
      (∀ n ∈ l, ∀ nx ny : ℚ, n.x = some nx → n.y = some ny →
        ¬ (screenDistSq t c nx ny < acc.2)) →
      l.foldl (hitFold t c) acc = acc := by
  intro l
  induction l with
  | nil => intro acc _; rfl
  | cons n rest ih =>
    intro acc h
    have hstep : hitFold t c acc n = acc := by
      unfold hitFold
      cases hx : n.x with
      | none => rfl
      | some nx =>
        cases hy : n.y with
        | none => rfl
        | some ny =>
          dsimp only
          rw [if_neg (h n (by simp) nx ny hx hy)]
    simp only [List.foldl_cons, hstep]
    exact ih acc (fun m hm => h m (List.mem_cons_of_mem _ hm))

theorem screenDistSq_nonneg {t : ViewTransform} {c : ℚ × ℚ} {nx ny : ℚ} :
    0 ≤ screenDistSq t c nx ny := by
  unfold screenDistSq
  positivity

/-- The hit-test fold resolves to the strictly nearest positioned node
(ties allowed only among entries carrying the same id). -/
theorem hitFold_argmin {t : ViewTransform} {c : ℚ × ℚ} {n : VisNode} {nx ny : ℚ}
    (hx : n.x = some nx) (hy : n.y = some ny) :
    ∀ (l : List VisNode), n ∈ l →
      (∀ m ∈ l, ∀ mx my : ℚ, m.x = some mx → m.y = some my →
        screenDistSq t c nx ny < screenDistSq t c mx my ∨
        (m.id = n.id ∧ screenDistSq t c mx my = screenDistSq t c nx ny)) →
      ∀ acc : Option String × ℚ, screenDistSq t c nx ny < acc.2 →
        l.foldl (hitFold t c) acc = (some n.id, screenDistSq t c nx ny) := by
  intro l
  induction l with
  | nil => intro hn; cases hn
  | cons m rest ih =>
    intro hn hmin acc hacc
    by_cases hm : ∃ mx my : ℚ, m.x = some mx ∧ m.y = some my
    · obtain ⟨mx, my, hmx, hmy⟩ := hm
      have hstep : hitFold t c acc m =
          if screenDistSq t c mx my < acc.2
          then (some m.id, screenDistSq t c mx my) else acc := by
        unfold hitFold
        rw [hmx, hmy]
      rcases hmin m (by simp) mx my hmx hmy with hlt | ⟨hid, heq⟩
      · have hne : n ≠ m := by
          intro he
          subst he
          rw [hx] at hmx
          rw [hy] at hmy
          cases hmx
          cases hmy
          exact lt_irrefl _ hlt
        have hn' : n ∈ rest := by
          rcases List.mem_cons.mp hn with h' | h'
          · exact absurd h' hne
          · exact h'
        have hmin' := fun m' hm' => hmin m' (List.mem_cons_of_mem _ hm')
        simp only [List.foldl_cons, hstep]
        by_cases hcase : screenDistSq t c mx my < acc.2
        · rw [if_pos hcase]
          exact ih hn' hmin' _ hlt
        · rw [if_neg hcase]
          exact ih hn' hmin' _ hacc
      · simp only [List.foldl_cons, hstep, heq]
        rw [if_pos hacc, hid]
        apply hitFold_no_update
        intro m' hm' mx' my' hmx' hmy'
        rcases hmin m' (List.mem_cons_of_mem _ hm') mx' my' hmx' hmy' with hlt' | ⟨_, heq'⟩
        · exact not_lt.mpr (le_of_lt hlt')
        · rw [heq']
          exact lt_irrefl _
    · have hstep : hitFold t c acc m = acc := by
        unfold hitFold
        cases hmx : m.x with
        | none => rfl
        | some mx =>
          cases hmy : m.y with
          | none => rfl
          | some my => exact absurd ⟨mx, my, hmx, hmy⟩ hm
      have hne : n ≠ m := fun he => hm ⟨nx, ny, he ▸ hx, he ▸ hy⟩
      have hn' : n ∈ rest := by
        rcases List.mem_cons.mp hn with h' | h'
        · exact absurd h' hne
        · exact h'
      simp only [List.foldl_cons, hstep]
      exact ih hn' (fun m' hm' => hmin m' (List.mem_cons_of_mem _ hm')) acc hacc

/-! ### Claim C8 -/

/-- C8: Under the active view transform, (a) a cursor sample resolves to
the strictly nearest node within 70 screen pixels (squared bound `70^2`);
(b) in particular, a cursor pixel position exactly at one node's screen
projection — with no other node projecting at the same point unless it
carries the same id — resolves to that node; (c) a cursor sample strictly
farther than 70 pixels from every positioned node's projection resolves
to `null`. -/
theorem C8_hit_test (width height zoom : ℚ) (focus : Option String)
    (nodes : List VisNode) (c : ℚ × ℚ) :
    (∀ n ∈ nodes, ∀ nx ny : ℚ, n.x = some nx → n.y = some ny →
      screenDistSq (hitTestTransform width height zoom focus nodes)
        (c.1 * width, c.2 * height) nx ny < 70 ^ 2 →
      (∀ m ∈ nodes, ∀ mx my : ℚ, m.x = some mx → m.y = some my →
        screenDistSq (hitTestTransform width height zoom focus nodes)
          (c.1 * width, c.2 * height) nx ny
          < screenDistSq (hitTestTransform width height zoom focus nodes)
              (c.1 * width, c.2 * height) mx my ∨
        (m.id = n.id ∧
          screenDistSq (hitTestTransform width height zoom focus nodes)
            (c.1 * width, c.2 * height) mx my
          = screenDistSq (hitTestTransform width height zoom focus nodes)
              (c.1 * width, c.2 * height) nx ny)) →
      hitTest width height (some c) zoom focus nodes = some n.id) ∧
    (∀ n ∈ nodes, ∀ nx ny : ℚ, n.x = some nx → n.y = some ny →
      (nx * (hitTestTransform width height zoom focus nodes).2.2 +
        (hitTestTransform width height zoom focus nodes).1,
       ny * (hitTestTransform width height zoom focus nodes).2.2 +
        (hitTestTransform width height zoom focus nodes).2.1)
        = (c.1 * width, c.2 * height) →
      (∀ m ∈ nodes, ∀ mx my : ℚ, m.x = some mx → m.y = some my →
        screenDistSq (hitTestTransform width height zoom focus nodes)
          (c.1 * width, c.2 * height) mx my = 0 → m.id = n.id) →
      hitTest width height (some c) zoom focus nodes = some n.id) ∧
    ((∀ m ∈ nodes, ∀ mx my : ℚ, m.x = some mx → m.y = some my →
        70 ^ 2 < screenDistSq (hitTestTransform width height zoom focus nodes)
          (c.1 * width, c.2 * height) mx my) →
      hitTest width height (some c) zoom focus nodes = none) := by
  have hnearest : ∀ n ∈ nodes, ∀ nx ny : ℚ, n.x = some nx → n.y = some ny →
      screenDistSq (hitTestTransform width height zoom focus nodes)
        (c.1 * width, c.2 * height) nx ny < 70 ^ 2 →
      (∀ m ∈ nodes, ∀ mx my : ℚ, m.x = some mx → m.y = some my →
        screenDistSq (hitTestTransform width height zoom focus nodes)
          (c.1 * width, c.2 * height) nx ny
          < screenDistSq (hitTestTransform width height zoom focus nodes)
              (c.1 * width, c.2 * height) mx my ∨
        (m.id = n.id ∧
          screenDistSq (hitTestTransform width height zoom focus nodes)
            (c.1 * width, c.2 * height) mx my
          = screenDistSq (hitTestTransform width height zoom focus nodes)
              (c.1 * width, c.2 * height) nx ny)) →
      hitTest width height (some c) zoom focus nodes = some n.id := by
    intro n hn nx ny hx hy hlt hmin
    unfold hitTest
    dsimp only
    rw [if_neg (by
      intro hlen
      rw [List.length_eq_zero] at hlen
      rw [hlen] at hn
      cases hn)]
    rw [hitFold_argmin hx hy nodes hn hmin (none, 70 ^ 2) hlt]
  refine ⟨hnearest, ?_, ?_⟩
  · intro n hn nx ny hx hy hproj hsame
    have hd0 : screenDistSq (hitTestTransform width height zoom focus nodes)
        (c.1 * width, c.2 * height) nx ny = 0 := by
      unfold screenDistSq
      have h1 : nx * (hitTestTransform width height zoom focus nodes).2.2 +
          (hitTestTransform width height zoom focus nodes).1 = c.1 * width :=
        congrArg Prod.fst hproj
      have h2 : ny * (hitTestTransform width height zoom focus nodes).2.2 +
          (hitTestTransform width height zoom focus nodes).2.1 = c.2 * height :=
        congrArg Prod.snd hproj
      rw [h1, h2]
      ring
    apply hnearest n hn nx ny hx hy (by rw [hd0]; norm_num)
    intro m hm mx my hmx hmy
    by_cases hdm : screenDistSq (hitTestTransform width height zoom focus nodes)
        (c.1 * width, c.2 * height) mx my = 0
    · exact Or.inr ⟨hsame m hm mx my hmx hmy hdm, by rw [hdm, hd0]⟩
    · left
      rw [hd0]
      rcases lt_or_eq_of_le (screenDistSq_nonneg :
        (0:ℚ) ≤ screenDistSq (hitTestTransform width height zoom focus nodes)
          (c.1 * width, c.2 * height) mx my) with h' | h'
      · exact h'
      · exact absurd h'.symm hdm
  · intro hall
    unfold hitTest
    dsimp only
    by_cases hlen : nodes.length = 0
    · rw [if_pos hlen]
    · rw [if_neg hlen]
      rw [hitFold_no_update nodes (none, 70 ^ 2) (by
        intro m hm mx my hmx hmy
        exact not_lt.mpr (le_of_lt (hall m hm mx my hmx hmy)))]

/-- Witness for C8: viewport 1000×1000, zoom 1, no focus, nodes `n1` at
the origin (projecting to pixel (500,500)) and `n2` at (100,0) (projecting
to (600,500), squared distance 10000 from the cursor).  A cursor at
normalized (1/2,1/2) — exactly `n1`'s projection — resolves to `n1`; a
cursor at (0,0) is farther than 70px from both nodes and resolves to
nothing. -/
theorem C8_hit_test_witness :
    (hitTest 1000 1000 (some (1/2, 1/2)) 1 none
      [⟨"n1", some 0, some 0⟩, ⟨"n2", some 100, some 0⟩] = some "n1") ∧
    (hitTest 1000 1000 (some (0, 0)) 1 none
      [⟨"n1", some 0, some 0⟩, ⟨"n2", some 100, some 0⟩] = none) := by
  constructor
  · apply (C8_hit_test 1000 1000 1 none
      [⟨"n1", some 0, some 0⟩, ⟨"n2", some 100, some 0⟩] (1/2, 1/2)).2.1
      ⟨"n1", some 0, some 0⟩ (by simp) 0 0 rfl rfl
    · norm_num [hitTestTransform, Prod.ext_iff]
    · intro m hm mx my hmx hmy hd0
      fin_cases hm
      · rfl
      · simp only [Option.some.injEq] at hmx hmy
        subst hmx
        subst hmy
        norm_num [screenDistSq, hitTestTransform] at hd0
  · apply (C8_hit_test 1000 1000 1 none
      [⟨"n1", some 0, some 0⟩, ⟨"n2", some 100, some 0⟩] (0, 0)).2.2
    intro m hm mx my hmx hmy
    fin_cases hm <;>
      (simp only [Option.some.injEq] at hmx hmy
       subst hmx
       subst hmy
       norm_num [screenDistSq, hitTestTransform])

/-! ### Claim C10 -/

/-- C10: When a node id is focused but the lookup yields no node with
defined coordinates (node missing, or either coordinate still undefined),
both the hit-test projection and the rendered view transform fall back to
the same unfocused transform `translate(width/2, height/2)
scale(zoomLevel)`, so hover resolution and the rendered view agree. -/
theorem C10_transform_fallback (width height zoom : ℚ) (fid : String)
    (nodes : List VisNode)
    (hnopos : ∀ n, nodes.find? (fun n => n.id = fid) = some n →
      n.x = none ∨ n.y = none) :
    hitTestTransform width height zoom (some fid) nodes
        = (width / 2, height / 2, zoom) ∧
    renderTransform width height zoom (some fid) nodes
        = (width / 2, height / 2, zoom) := by
  constructor
  · unfold hitTestTransform
    dsimp only
    by_cases hfid : fid = ""
    · rw [if_pos hfid]
    · rw [if_neg hfid]
      cases hfind : nodes.find? (fun n => n.id = fid) with
      | none => rfl
      | some fn =>
        dsimp only
        rcases hnopos fn hfind with hx | hy
        · rw [hx]
        · rw [hy]
          cases fn.x <;> rfl
  · unfold renderTransform
    dsimp only
    by_cases hfid : fid = ""
    · rw [if_pos hfid]
    · rw [if_neg hfid]
      cases hfind : nodes.find? (fun n => n.id = fid) with
      | none => rfl
      | some fn =>
        dsimp only
        rcases hnopos fn hfind with hx | hy
        · rw [hx]
        · rw [hy]
          cases fn.x <;> rfl

/-- Witness for C10: focused id `"a"` whose node has no coordinates yet;
both transforms equal `translate(500, 500) scale(0.8)`. -/
theorem C10_transform_fallback_witness :
    hitTestTransform 1000 1000 (4/5) (some "a") [⟨"a", none, none⟩]
        = (500, 500, 4/5) ∧
    renderTransform 1000 1000 (4/5) (some "a") [⟨"a", none, none⟩]
        = (500, 500, 4/5) := by
  have h := C10_transform_fallback 1000 1000 (4/5) "a" [⟨"a", none, none⟩]
    (by
      intro n hn
      simp [List.find?] at hn
      rw [← hn]
      exact Or.inl rfl)
  refine ⟨?_, ?_⟩
  · rw [h.1]
    norm_num
  · rw [h.2]
    norm_num

end Synapse
